import Mathlib

/-!
# Verification of the `lockers` package (TheWug/lockers)

A shallow embedding of `lockers.go` (the complete, documented copy of the
file is `src/unnamed/part_000`; `src/lockers.go` holds an older copy of the
same functions that omits the `LockersByPackageId` bookkeeping present in
the documented copy — where the two copies differ, the documented copy is
embedded and the difference is noted at the definition).

Modelling conventions:
* Go `int` / `int64` values are modelled as `Int`.  Where the source itself
  performs wrapping 64-bit arithmetic that matters (`Normalize`'s negation,
  `Volume`'s products) the wrap is made explicit with `wrap64`.
* Go maps are modelled as association lists (`List (κ × ν)`) in insertion
  order; Go iterates maps in an unspecified order, and an association list
  realizes one such order.  `lookupA`/`insertA`/`eraseA` model read, write
  and `delete`.
* Pointers into the locker array are indices (`Nat`), exactly as the source
  comments describe ("Locker pointers are just indices into this array").
  The `Package.StoredIn *Locker` field is only ever nil-checked, set and
  cleared by the source, so it is modelled by the `Bool` `storedIn`
  (whether the pointer is non-nil).
* A Go runtime panic (nil-map-entry dereference, out-of-range index) is
  modelled by `Option`: `none` is a fatal fault, `some` a normal return.
  Recoverable `error` returns are `Except String`.
* The external uuid generator is a parameter `g : Nat → String` giving the
  identifier of the `n`-th locker created.
-/

set_option linter.unusedVariables false

/-- Association-list read, modelling a Go map read (`v, ok := m[k]`). -/
def lookupA {α β : Type} [DecidableEq α] : List (α × β) → α → Option β
  | [], _ => none
  | p :: rest, a => if p.1 = a then some p.2 else lookupA rest a

/-- Association-list write, modelling a Go map write (`m[k] = v`). -/
def insertA {α β : Type} [DecidableEq α] : List (α × β) → α → β → List (α × β)
  | [], k, v => [(k, v)]
  | p :: rest, k, v => if p.1 = k then (k, v) :: rest else p :: insertA rest k v

/-- Association-list removal, modelling Go `delete(m, k)`. -/
def eraseA {α β : Type} [DecidableEq α] (l : List (α × β)) (k : α) : List (α × β) :=
  l.filter fun p => decide (p.1 ≠ k)

/-- Wrap an integer into the two's-complement `int64` range, modelling Go's
64-bit wrapping arithmetic. -/
def wrap64 (n : Int) : Int := (n + 2 ^ 63) % 2 ^ 64 - 2 ^ 63

/-- `type LockerSize int` — the identifier of a size class. -/
abbrev LockerSize := Int

/-- `type SizeSpec struct { Length, Width, Height int }` -/
structure SizeSpec where
  length : Int
  width : Int
  height : Int
deriving DecidableEq, Repr

/-- The negation step of `Normalize`: `if x < 0 { x = 0 - x }` in Go's
wrapping 64-bit arithmetic (wraps at MIN_INT64, as the source comment
itself notes). -/
def goAbs (x : Int) : Int :=
  if x < 0 then wrap64 (0 - x) else x

/-- The hard coded 3 element bubble sort of `Normalize`, on
(length, width, height). -/
def sort3 (l w h : Int) : Int × Int × Int :=
  let (h1, w1) := if h > w then (w, h) else (h, w)
  let (w2, l1) := if w1 > l then (l, w1) else (w1, l)
  let (h2, w3) := if h1 > w2 then (w2, h1) else (h1, w2)
  (l1, w3, h2)

/-- `func (spec SizeSpec) Normalize() SizeSpec` — absolute values (Go's
wrapping negation `0 - x`), then a hard-coded 3-element bubble sort into
descending order. -/
def SizeSpec.Normalize (spec : SizeSpec) : SizeSpec :=
  let r := sort3 (goAbs spec.length) (goAbs spec.width) (goAbs spec.height)
  { length := r.1, width := r.2.1, height := r.2.2 }

/-- `func (spec SizeSpec) Volume() int64` — product of the dimensions in
wrapping 64-bit arithmetic. -/
def SizeSpec.Volume (spec : SizeSpec) : Int :=
  wrap64 (wrap64 (spec.length * spec.width) * spec.height)

/-- `func (spec SizeSpec) Contains(other SizeSpec) bool` — componentwise
comparison; expects normalized operands. -/
def SizeSpec.Contains (spec other : SizeSpec) : Bool :=
  decide (spec.length ≥ other.length) &&
  decide (spec.width ≥ other.width) &&
  decide (spec.height ≥ other.height)

/-- `type Package struct` — `storedIn` models whether the `StoredIn *Locker`
pointer is non-nil (the source only nil-checks, sets and clears it). -/
structure Package where
  id : String
  size : SizeSpec
  storedIn : Bool
deriving DecidableEq, Repr

/-- `type Locker struct` — `contents` models the `Contents *Package` pointer. -/
structure Locker where
  id : String
  sizeId : LockerSize
  contents : Option Package
deriving DecidableEq, Repr

/-- `type LockerControlSpec struct`.  Per the source fixtures and comments,
`biggerThan` lists the classes this class is bigger than (strictly smaller
classes) and `smallerThan` the classes it is smaller than (strictly bigger
classes). -/
structure LockerControlSpec where
  sizeId : LockerSize
  size : SizeSpec
  biggerThan : List LockerSize
  smallerThan : List LockerSize
  lockers : List Nat
  virtualCapacity : Int
deriving DecidableEq, Repr

/-- `func (lcs LockerControlSpec) Full() bool` -/
def LockerControlSpec.Full (lcs : LockerControlSpec) : Bool :=
  lcs.lockers.length == 0

/-- `type Inventory struct` -/
structure Inventory where
  lockers : List Locker
  control : List (LockerSize × LockerControlSpec)
  sizes : List (SizeSpec × LockerSize)
  lockersById : List (String × Nat)
  lockersByPackageId : List (String × Nat)
deriving DecidableEq, Repr

/-- Replace the control block stored under key `sid`, modelling a mutation
through the `*LockerControlSpec` pointer held in the `Control` map. -/
def Inventory.modifyControl (inv : Inventory) (sid : LockerSize)
    (f : LockerControlSpec → LockerControlSpec) : Inventory :=
  { inv with control := inv.control.map fun p => if p.1 = sid then (p.1, f p.2) else p }

/-- `func (id LockerSize) Before(other_id LockerSize, inv IControlSpec) bool` —
inventory-aware comparison: largest virtual capacity first, then smallest
volume.  `none` models the nil-pointer dereference on an unknown class. -/
def LockerSize.Before (id other_id : LockerSize) (inv : Inventory) : Option Bool := do
  let self ← lookupA inv.control id
  let other ← lookupA inv.control other_id
  if self.virtualCapacity > other.virtualCapacity then
    some true
  else if self.virtualCapacity = other.virtualCapacity ∧ self.size.Volume < other.size.Volume then
    some true
  else
    some false

/-- `func (l *Locker) Put(pkg *Package) error` — returns the updated locker
and package on success. -/
def Locker.Put (l : Locker) (pkg : Package) : Except String (Locker × Package) :=
  if l.contents.isSome then
    .error "Locker is not empty"
  else if pkg.storedIn then
    .error "Package already in locker"
  else
    let pkg' := { pkg with storedIn := true }
    .ok ({ l with contents := some pkg' }, pkg')

/-- `func (l *Locker) Fetch() (*Package, error)` — returns the emptied locker
and the removed package on success. -/
def Locker.Fetch (l : Locker) : Except String (Locker × Package) :=
  match l.contents with
  | none => .error "Tried to fetch from empty locker"
  | some p => .ok ({ l with contents := none }, { p with storedIn := false })

/-- The inner loop of `AdjustVirtualCapacity`: add `amt` to the virtual
capacity of every class in `ids`; `none` models the nil-pointer panic on an
unknown class. -/
def adjustLoop (inv : Inventory) (ids : List LockerSize) (amt : Int) : Option Inventory :=
  match ids with
  | [] => some inv
  | other_id :: rest => do
    let _ ← lookupA inv.control other_id
    adjustLoop
      (inv.modifyControl other_id fun c => { c with virtualCapacity := c.virtualCapacity + amt })
      rest amt

/-- `func (inv *Inventory) AdjustVirtualCapacity(size_id LockerSize, by int)` —
adds `amt` to the class and to every class in its `BiggerThan` list. -/
def Inventory.AdjustVirtualCapacity (inv : Inventory) (size_id : LockerSize) (amt : Int) :
    Option Inventory := do
  let ctrl ← lookupA inv.control size_id
  let inv := inv.modifyControl size_id fun c => { c with virtualCapacity := c.virtualCapacity + amt }
  adjustLoop inv ctrl.biggerThan amt

/-- `func (inv *Inventory) AllocateLocker(size_id LockerSize) int` — pops the
last free index of the class and applies a −1 capacity delta.  `none` models
the panic on an unknown class (nil control block) or an empty free list
(index −1). -/
def Inventory.AllocateLocker (inv : Inventory) (size_id : LockerSize) :
    Option (Nat × Inventory) := do
  let ctrl ← lookupA inv.control size_id
  let locker_index ← ctrl.lockers.getLast?
  let inv := inv.modifyControl size_id fun c => { c with lockers := c.lockers.dropLast }
  let inv ← inv.AdjustVirtualCapacity size_id (-1)
  some (locker_index, inv)

/-- `func (inv *Inventory) DeallocateLocker(locker_index int)` — pushes the
index back on its class's free list and applies a +1 capacity delta. -/
def Inventory.DeallocateLocker (inv : Inventory) (locker_index : Nat) : Option Inventory := do
  let lk ← inv.lockers[locker_index]?
  let _ ← lookupA inv.control lk.sizeId
  let inv := inv.modifyControl lk.sizeId fun c => { c with lockers := c.lockers ++ [locker_index] }
  inv.AdjustVirtualCapacity lk.sizeId 1

/-- The candidate-collection loop of `GetMostSuitableLockerSize`: every size
class that contains the package and is not `Full`, in iteration order. -/
def buildCandidates (inv : Inventory) (package_size : SizeSpec) :
    List (SizeSpec × LockerSize) → Option (List LockerSize)
  | [] => some []
  | (size, size_id) :: rest =>
    if size.Contains package_size then
      match lookupA inv.control size_id with
      | none => none
      | some ctrl =>
        if ctrl.Full then
          buildCandidates inv package_size rest
        else
          (buildCandidates inv package_size rest).map (size_id :: ·)
    else
      buildCandidates inv package_size rest

/-- The linear scan of `GetMostSuitableLockerSize`: keep the candidate that
sorts `Before` the current choice. -/
def chooseLoop (inv : Inventory) : LockerSize → List LockerSize → Option LockerSize
  | chosen, [] => some chosen
  | chosen, id :: rest => do
    let b ← LockerSize.Before id chosen inv
    chooseLoop inv (if b then id else chosen) rest

/-- `func (inv *Inventory) GetMostSuitableLockerSize(package_size SizeSpec) (LockerSize, error)` —
the method reads but never writes the inventory, so the (unchanged) receiver
is returned alongside the result. -/
def Inventory.GetMostSuitableLockerSize (inv : Inventory) (package_size : SizeSpec) :
    Option (Except String LockerSize × Inventory) := do
  let candidate_sizes ← buildCandidates inv package_size inv.sizes
  match candidate_sizes with
  | [] => some (.error "No available lockers which can fit package", inv)
  | c :: rest => do
    let chosen_id ← chooseLoop inv c rest
    some (.ok chosen_id, inv)

/-- `func (inv *Inventory) DepositPackage(pkg *Package) (LockerID, error)` —
embedded from the documented copy (`src/unnamed/part_000`), which checks the
`Put` error and records the package-id→index reverse mapping. -/
def Inventory.DepositPackage (inv : Inventory) (pkg : Package) :
    Option (Except String String × Inventory) :=
  match lookupA inv.lockersByPackageId pkg.id with
  | some _ => some (.error "Duplicate package ID", inv)
  | none => do
    let (r, inv) ← inv.GetMostSuitableLockerSize pkg.size.Normalize
    match r with
    | .error e => some (.error e, inv)
    | .ok chosen_id => do
      let ctrl ← lookupA inv.control chosen_id
      let locker_index ← ctrl.lockers.getLast?
      let lk ← inv.lockers[locker_index]?
      match lk.Put pkg with
      | .error e => some (.error e, inv)
      | .ok (lk', _) => do
        let inv := { inv with lockers := inv.lockers.set locker_index lk' }
        let (_, inv) ← inv.AllocateLocker chosen_id
        let inv := { inv with
          lockersByPackageId := insertA inv.lockersByPackageId pkg.id locker_index }
        let lk2 ← inv.lockers[locker_index]?
        some (.ok lk2.id, inv)

/-- `func (inv *Inventory) RetrievePackageInternal(locker_index int, ok bool)` —
embedded from the documented copy (`src/unnamed/part_000`), which deletes the
package-id reverse mapping on success. -/
def Inventory.RetrievePackageInternal (inv : Inventory) (locker_index : Nat) (ok : Bool) :
    Option (Except String Package × Inventory) :=
  if !ok then
    some (.error "Package ID not known", inv)
  else do
    let lk ← inv.lockers[locker_index]?
    match lk.Fetch with
    | .error e => some (.error e, inv)
    | .ok (lk', pkg) => do
      let inv := { inv with lockers := inv.lockers.set locker_index lk' }
      let inv ← inv.DeallocateLocker locker_index
      some (.ok pkg, { inv with lockersByPackageId := eraseA inv.lockersByPackageId pkg.id })

/-- `func (inv *Inventory) RetrievePackageById(id PackageID)` — a missing map
entry yields the zero index and `ok = false`. -/
def Inventory.RetrievePackageById (inv : Inventory) (id : String) :
    Option (Except String Package × Inventory) :=
  match lookupA inv.lockersByPackageId id with
  | some lid => inv.RetrievePackageInternal lid true
  | none => inv.RetrievePackageInternal 0 false

/-- `func (inv *Inventory) RetrievePackageByLockerId(id LockerID)` -/
def Inventory.RetrievePackageByLockerId (inv : Inventory) (id : String) :
    Option (Except String Package × Inventory) :=
  match lookupA inv.lockersById id with
  | some lid => inv.RetrievePackageInternal lid true
  | none => inv.RetrievePackageInternal 0 false

/-- The inner locker-materialization loop of `NewInventory`: create `count`
lockers of class `sid`, each with the next generated identifier, appended to
the flat array, registered in `LockersById` and pushed on the class free
list.  The Go code writes into a pre-allocated array at a running `index`;
since that index always equals the number of lockers created so far, this is
appending in order. -/
def addLockersLoop (g : Nat → String) (sid : LockerSize) (count : Nat) (inv : Inventory) :
    Inventory :=
  match count with
  | 0 => inv
  | n + 1 =>
    let index := inv.lockers.length
    let id := g index
    let inv := { inv with
      lockers := inv.lockers ++ [({ id := id, sizeId := sid, contents := none } : Locker)],
      lockersById := insertA inv.lockersById id index }
    let inv := inv.modifyControl sid fun c => { c with lockers := c.lockers ++ [index] }
    addLockersLoop g sid n inv

/-- Phase 1 of `NewInventory`: normalize each requested size, allocate a
fresh class identifier (`len(inv.Sizes) + 1`) for unseen sizes, and
materialize the requested lockers. -/
def phase1 (g : Nat → String) : List (SizeSpec × Nat) → Inventory → Inventory
  | [], inv => inv
  | (size0, count) :: rest, inv =>
    let size := size0.Normalize
    match lookupA inv.sizes size with
    | some size_id => phase1 g rest (addLockersLoop g size_id count inv)
    | none =>
      let size_id : LockerSize := Int.ofNat inv.sizes.length + 1
      let inv := { inv with
        sizes := insertA inv.sizes size size_id,
        control := insertA inv.control size_id
          { sizeId := size_id, size := size, biggerThan := [], smallerThan := [],
            lockers := [], virtualCapacity := 0 } }
      phase1 g rest (addLockersLoop g size_id count inv)

/-- The class identifier the relation loop of `NewInventory` reads for a
size: `inv.Sizes[s]`, with the Go zero value `0` for a missing key. -/
def idOf (inv : Inventory) (s : SizeSpec) : LockerSize :=
  (lookupA inv.sizes s).getD 0

/-- One pair comparison of the containment-relation loop: record a directed
edge in both blocks when exactly one containment direction holds.  Go reads
`inv.Sizes[s]` (zero value if missing) and then writes through the possibly
nil `inv.Control[...]` pointer, whose dereference `none` models (checked
before each of the two appends, matching the two map writes). -/
def relatePair (inv : Inventory) (s1 s2 : SizeSpec) : Option Inventory :=
  if s1.Contains s2 then
    match lookupA inv.control (idOf inv s1) with
    | none => none
    | some _ =>
      match lookupA (inv.modifyControl (idOf inv s1) fun c => { c with biggerThan := c.biggerThan ++ [idOf inv s2] }).control (idOf inv s2) with
      | none => none
      | some _ =>
        some ((inv.modifyControl (idOf inv s1) fun c => { c with biggerThan := c.biggerThan ++ [idOf inv s2] }).modifyControl (idOf inv s2) fun c => { c with smallerThan := c.smallerThan ++ [idOf inv s1] })
  else if s2.Contains s1 then
    match lookupA inv.control (idOf inv s1) with
    | none => none
    | some _ =>
      match lookupA (inv.modifyControl (idOf inv s1) fun c => { c with smallerThan := c.smallerThan ++ [idOf inv s2] }).control (idOf inv s2) with
      | none => none
      | some _ =>
        some ((inv.modifyControl (idOf inv s1) fun c => { c with smallerThan := c.smallerThan ++ [idOf inv s2] }).modifyControl (idOf inv s2) fun c => { c with biggerThan := c.biggerThan ++ [idOf inv s1] })
  else
    some inv

/-- The ordered pairs `(sizes[i], sizes[j])`, `i < j`, visited by the
containment-relation double loop. -/
def allPairs {α : Type} : List α → List (α × α)
  | [] => []
  | x :: rest => rest.map (fun y => (x, y)) ++ allPairs rest

/-- Fold `relatePair` over a pair list; `phase2` below instantiates it with
`allPairs`, linearizing the double loop of `NewInventory`. -/
def relateList (inv : Inventory) : List (SizeSpec × SizeSpec) → Option Inventory
  | [] => some inv
  | p :: rest => do
    let inv ← relatePair inv p.1 p.2
    relateList inv rest

/-- Phase 2 of `NewInventory`: build the containment relation over the
distinct normalized sizes in discovery order. -/
def phase2 (inv : Inventory) : Option Inventory :=
  relateList inv (allPairs (inv.sizes.map Prod.fst))

/-- `Σ len(inv.Control[id].Lockers)` over a list of class identifiers;
`none` models the nil-pointer panic on an unknown identifier. -/
def sumLockersOf (inv : Inventory) : List LockerSize → Option Nat
  | [] => some 0
  | id :: rest => do
    let c ← lookupA inv.control id
    let s ← sumLockersOf inv rest
    some (c.lockers.length + s)

/-- Phase 3 body: every block's virtual capacity becomes the sum of the free
counts of the classes it is smaller than, plus its own free count.  Free
lists are only read, never written, so the Go map-order iteration is
order-insensitive and all sums read the phase-2 inventory. -/
def phase3Loop (inv : Inventory) :
    List (LockerSize × LockerControlSpec) → Option (List (LockerSize × LockerControlSpec))
  | [] => some []
  | (sid, c) :: rest => do
    let s ← sumLockersOf inv c.smallerThan
    let rest' ← phase3Loop inv rest
    some ((sid, { c with virtualCapacity := c.virtualCapacity + Int.ofNat s + Int.ofNat c.lockers.length }) :: rest')

/-- Phase 3 of `NewInventory`: seed every class's virtual capacity. -/
def phase3 (inv : Inventory) : Option Inventory :=
  (phase3Loop inv inv.control).map fun ctl => ({ inv with control := ctl } : Inventory)

/-- `func NewInventory(locker_counts_by_size map[SizeSpec]int) *Inventory` —
the input map is given as an association list (one possible Go iteration
order) with the requested counts as naturals (the spec requires counts ≥ 0);
`g` is the external uuid generator, indexed by creation order. -/
def NewInventory (g : Nat → String) (locker_counts_by_size : List (SizeSpec × Nat)) :
    Option Inventory := do
  let inv := phase1 g locker_counts_by_size
    { lockers := [], control := [], sizes := [], lockersById := [], lockersByPackageId := [] }
  let inv ← phase2 inv
  phase3 inv

/-! ## Arithmetic facts about `wrap64`, `goAbs` and `sort3` -/

theorem wrap64_eq_self {y : Int} (h1 : -(2 ^ 63) ≤ y) (h2 : y < 2 ^ 63) : wrap64 y = y := by
  unfold wrap64
  rw [Int.emod_eq_of_lt (by omega) (by omega)]
  omega

theorem wrap64_min : wrap64 (2 ^ 63) = -(2 ^ 63) := by decide

theorem goAbs_of_nonneg {x : Int} (h : 0 ≤ x) : goAbs x = x := by
  unfold goAbs
  rw [if_neg (by omega)]

theorem goAbs_min : goAbs (-(2 ^ 63)) = -(2 ^ 63) := by decide

/-- On `int64`-representable inputs, the negation step returns either a
small non-negative value or `MIN_INT64` itself. -/
theorem goAbs_range {x : Int} (h1 : -(2 ^ 63) ≤ x) (h2 : x < 2 ^ 63) :
    (0 ≤ goAbs x ∧ goAbs x < 2 ^ 63) ∨ goAbs x = -(2 ^ 63) := by
  unfold goAbs
  split
  · rcases eq_or_lt_of_le h1 with heq | hlt
    · right
      rw [← heq]
      simpa using wrap64_min
    · left
      rw [wrap64_eq_self (by omega) (by omega)]
      omega
  · left
    omega

/-- Strictly in-range inputs produce a non-negative, in-range result. -/
theorem goAbs_range_strict {x : Int} (h1 : -(2 ^ 63) < x) (h2 : x < 2 ^ 63) :
    0 ≤ goAbs x ∧ goAbs x < 2 ^ 63 := by
  unfold goAbs
  split
  · rw [wrap64_eq_self (by omega) (by omega)]
    omega
  · omega

theorem sort3_sorted (l w h : Int) :
    (sort3 l w h).2.1 ≤ (sort3 l w h).1 ∧ (sort3 l w h).2.2 ≤ (sort3 l w h).2.1 := by
  simp only [sort3]
  split_ifs <;> simp_all <;> omega

theorem sort3_eq_of_sorted {l w h : Int} (hlw : w ≤ l) (hwh : h ≤ w) :
    sort3 l w h = (l, w, h) := by
  simp only [sort3]
  split_ifs <;> simp_all <;> omega

theorem sort3_mem (l w h : Int) :
    ((sort3 l w h).1 = l ∨ (sort3 l w h).1 = w ∨ (sort3 l w h).1 = h) ∧
    ((sort3 l w h).2.1 = l ∨ (sort3 l w h).2.1 = w ∨ (sort3 l w h).2.1 = h) ∧
    ((sort3 l w h).2.2 = l ∨ (sort3 l w h).2.2 = w ∨ (sort3 l w h).2.2 = h) := by
  simp only [sort3]
  split_ifs <;> simp_all

/-! ## Claim C9 — `Normalize` -/

/-- All three dimensions representable in Go's 64-bit `int`. -/
def InRange64 (s : SizeSpec) : Prop :=
  -(2 ^ 63) ≤ s.length ∧ s.length < 2 ^ 63 ∧
  -(2 ^ 63) ≤ s.width ∧ s.width < 2 ^ 63 ∧
  -(2 ^ 63) ≤ s.height ∧ s.height < 2 ^ 63

instance (s : SizeSpec) : Decidable (InRange64 s) := by
  unfold InRange64
  infer_instance

/-- C9, corrected: on `int64`-representable inputs `Normalize` is idempotent
and its output is sorted descending; all three output dimensions are
non-negative provided no input dimension is `MIN_INT64` (`-2^63`), whose
wrapping negation is itself — the edge case the source comment and the spec
both declare out of scope, but which the claim's unqualified "always
non-negative" does not survive. -/
theorem normalize_props (s : SizeSpec) (hs : InRange64 s) :
    s.Normalize.Normalize = s.Normalize ∧
    (s.Normalize.width ≤ s.Normalize.length ∧ s.Normalize.height ≤ s.Normalize.width) ∧
    (s.length ≠ -(2 ^ 63) → s.width ≠ -(2 ^ 63) → s.height ≠ -(2 ^ 63) →
      0 ≤ s.Normalize.length ∧ 0 ≤ s.Normalize.width ∧ 0 ≤ s.Normalize.height) := by
  obtain ⟨hl1, hl2, hw1, hw2, hh1, hh2⟩ := hs
  have hal := goAbs_range hl1 hl2
  have haw := goAbs_range hw1 hw2
  have hah := goAbs_range hh1 hh2
  have hmem := sort3_mem (goAbs s.length) (goAbs s.width) (goAbs s.height)
  have hsorted := sort3_sorted (goAbs s.length) (goAbs s.width) (goAbs s.height)
  set a := goAbs s.length with ha
  set b := goAbs s.width with hb
  set c := goAbs s.height with hc
  have hrange : ∀ x : Int, x = a ∨ x = b ∨ x = c →
      (0 ≤ x ∧ x < 2 ^ 63) ∨ x = -(2 ^ 63) := by
    rintro x (rfl | rfl | rfl) <;> assumption
  have hfix : ∀ x : Int, x = a ∨ x = b ∨ x = c → goAbs x = x := by
    intro x hx
    rcases hrange x hx with ⟨h0, _⟩ | hmin
    · exact goAbs_of_nonneg h0
    · rw [hmin]
      exact goAbs_min
  refine ⟨?_, ?_, ?_⟩
  · show SizeSpec.Normalize _ = _
    unfold SizeSpec.Normalize
    simp only
    rw [hfix _ hmem.1, hfix _ hmem.2.1, hfix _ hmem.2.2,
      sort3_eq_of_sorted hsorted.1 hsorted.2]
  · exact hsorted
  · intro hnl hnw hnh
    have ha' : 0 ≤ a := (goAbs_range_strict (by omega) hl2).1
    have hb' : 0 ≤ b := (goAbs_range_strict (by omega) hw2).1
    have hc' : 0 ≤ c := (goAbs_range_strict (by omega) hh2).1
    have : ∀ x : Int, x = a ∨ x = b ∨ x = c → 0 ≤ x := by
      rintro x (rfl | rfl | rfl) <;> assumption
    exact ⟨this _ hmem.1, this _ hmem.2.1, this _ hmem.2.2⟩

/-- C9 counterexample: at the Go-representable input `(-2^63, 0, 0)` the
output of `Normalize` has a negative dimension, refuting "the output of
`Normalize` always has all three dimensions non-negative". -/
theorem normalize_nonneg_counterexample :
    ¬ (0 ≤ (SizeSpec.Normalize ⟨-(2 ^ 63), 0, 0⟩).length ∧
       0 ≤ (SizeSpec.Normalize ⟨-(2 ^ 63), 0, 0⟩).width ∧
       0 ≤ (SizeSpec.Normalize ⟨-(2 ^ 63), 0, 0⟩).height) := by
  decide

theorem normalize_props_witness :
    SizeSpec.Normalize (SizeSpec.Normalize ⟨3, -5, 4⟩) = SizeSpec.Normalize ⟨3, -5, 4⟩ ∧
    0 ≤ (SizeSpec.Normalize ⟨3, -5, 4⟩).height := by
  have h := normalize_props ⟨3, -5, 4⟩ (by decide)
  exact ⟨h.1, (h.2.2 (by decide) (by decide) (by decide)).2.2⟩

/-! ## Association-list and `modifyControl` toolkit -/

theorem lookupA_eq_none_iff {α β : Type} [DecidableEq α] (l : List (α × β)) (k : α) :
    lookupA l k = none ↔ ∀ p ∈ l, p.1 ≠ k := by
  induction l with
  | nil => simp [lookupA]
  | cons p rest ih =>
    simp only [lookupA]
    split
    · rename_i hp
      exact iff_of_false (by simp) (fun hall => hall p (by simp) hp)
    · rename_i hp
      rw [ih]
      constructor
      · intro hall q hq
        rcases List.mem_cons.mp hq with rfl | hq'
        · exact hp
        · exact hall q hq'
      · intro hall q hq
        exact hall q (List.mem_cons_of_mem _ hq)

theorem lookupA_mem {α β : Type} [DecidableEq α] {l : List (α × β)} {k : α} {v : β}
    (h : lookupA l k = some v) : (k, v) ∈ l := by
  induction l with
  | nil => simp [lookupA] at h
  | cons p rest ih =>
    simp only [lookupA] at h
    split at h
    · rename_i hp
      cases p with
      | mk a b =>
        simp only at hp
        obtain rfl := hp
        obtain rfl : b = v := by injection h
        exact List.mem_cons_self _ _
    · exact List.mem_cons_of_mem _ (ih h)

theorem mem_lookupA {α β : Type} [DecidableEq α] {l : List (α × β)} {k : α} {v : β}
    (hnd : (l.map Prod.fst).Nodup) (h : (k, v) ∈ l) : lookupA l k = some v := by
  induction l with
  | nil => simp at h
  | cons p rest ih =>
    simp only [List.map_cons, List.nodup_cons, List.mem_map] at hnd
    rcases List.mem_cons.mp h with rfl | hmem
    · simp [lookupA]
    · have hne : p.1 ≠ k := fun he => hnd.1 ⟨(k, v), hmem, he.symm⟩
      simp only [lookupA, if_neg hne]
      exact ih hnd.2 hmem

theorem lookupA_isSome_of_mem {α β : Type} [DecidableEq α] {l : List (α × β)} {k : α} {v : β}
    (h : (k, v) ∈ l) : (lookupA l k).isSome := by
  induction l with
  | nil => simp at h
  | cons p rest ih =>
    simp only [lookupA]
    split
    · simp
    · rename_i hp
      rcases List.mem_cons.mp h with rfl | hmem
      · simp at hp
      · exact ih hmem

theorem insertA_append {α β : Type} [DecidableEq α] {l : List (α × β)} {k : α} (v : β)
    (h : lookupA l k = none) : insertA l k v = l ++ [(k, v)] := by
  induction l with
  | nil => simp [insertA]
  | cons p rest ih =>
    simp only [lookupA] at h
    split at h
    · exact absurd h (by simp)
    · rename_i hp
      simp only [insertA, if_neg hp, List.cons_append, ih h]

theorem lookupA_insertA_self {α β : Type} [DecidableEq α] (l : List (α × β)) (k : α) (v : β) :
    lookupA (insertA l k v) k = some v := by
  induction l with
  | nil => simp [insertA, lookupA]
  | cons p rest ih =>
    simp only [insertA]
    split
    · simp [lookupA]
    · rename_i hp
      simp only [lookupA, if_neg hp]
      exact ih

theorem lookupA_insertA_ne {α β : Type} [DecidableEq α] (l : List (α × β)) (k k' : α) (v : β)
    (h : k' ≠ k) : lookupA (insertA l k v) k' = lookupA l k' := by
  have hkk : ¬ (k = k') := fun e => h e.symm
  induction l with
  | nil => simp [insertA, lookupA, hkk]
  | cons p rest ih =>
    simp only [insertA]
    split
    · rename_i hp
      simp only [lookupA, hp, if_neg hkk]
    · simp only [lookupA]
      split
      · rfl
      · exact ih

theorem eraseA_of_not_mem {α β : Type} [DecidableEq α] {l : List (α × β)} {k : α}
    (h : lookupA l k = none) : eraseA l k = l := by
  rw [eraseA, List.filter_eq_self]
  intro p hp
  simpa using (lookupA_eq_none_iff l k).mp h p hp

theorem eraseA_insertA {α β : Type} [DecidableEq α] (l : List (α × β)) (k : α) (v : β)
    (h : lookupA l k = none) : eraseA (insertA l k v) k = l := by
  rw [insertA_append v h, eraseA, List.filter_append]
  have h2 : List.filter (fun p => decide (p.1 ≠ k)) [(k, v)] = [] := by simp
  rw [h2, List.append_nil]
  exact eraseA_of_not_mem h

theorem lookupA_map_modify (l : List (LockerSize × LockerControlSpec)) (sid k : LockerSize)
    (f : LockerControlSpec → LockerControlSpec) :
    lookupA (l.map fun p => if p.1 = sid then (p.1, f p.2) else p) k =
      if k = sid then (lookupA l k).map f else lookupA l k := by
  induction l with
  | nil => simp [lookupA]
  | cons p rest ih =>
    by_cases hpk : p.1 = k
    · by_cases hks : k = sid
      · simp [lookupA, hpk, hks, hpk.trans hks]
      · have hps : ¬ p.1 = sid := by rw [hpk]; exact hks
        simp [lookupA, hpk, hks, hps]
    · by_cases hps : p.1 = sid
      · have h1 : ¬ sid = k := by rw [← hps]; exact hpk
        have h2 : ¬ k = sid := fun e => h1 e.symm
        simp [lookupA, hps, hpk, ih, h1, h2]
      · simp [lookupA, hps, hpk, ih]

@[simp] theorem modifyControl_lockers (inv : Inventory) (sid : LockerSize)
    (f : LockerControlSpec → LockerControlSpec) :
    (inv.modifyControl sid f).lockers = inv.lockers := rfl

@[simp] theorem modifyControl_sizes (inv : Inventory) (sid : LockerSize)
    (f : LockerControlSpec → LockerControlSpec) :
    (inv.modifyControl sid f).sizes = inv.sizes := rfl

@[simp] theorem modifyControl_lockersById (inv : Inventory) (sid : LockerSize)
    (f : LockerControlSpec → LockerControlSpec) :
    (inv.modifyControl sid f).lockersById = inv.lockersById := rfl

@[simp] theorem modifyControl_lockersByPackageId (inv : Inventory) (sid : LockerSize)
    (f : LockerControlSpec → LockerControlSpec) :
    (inv.modifyControl sid f).lockersByPackageId = inv.lockersByPackageId := rfl

theorem modifyControl_lookup (inv : Inventory) (sid k : LockerSize)
    (f : LockerControlSpec → LockerControlSpec) :
    lookupA (inv.modifyControl sid f).control k =
      if k = sid then (lookupA inv.control k).map f else lookupA inv.control k :=
  lookupA_map_modify _ _ _ _

theorem modifyControl_keys (inv : Inventory) (sid : LockerSize)
    (f : LockerControlSpec → LockerControlSpec) :
    (inv.modifyControl sid f).control.map Prod.fst = inv.control.map Prod.fst := by
  simp only [Inventory.modifyControl, List.map_map]
  apply List.map_congr_left
  intro p hp
  by_cases h : p.1 = sid <;> simp [h]

/-! ## Option plumbing -/

theorem optBind_eq_some {α β : Type} {o : Option α} {f : α → Option β} {b : β} :
    (o >>= f) = some b ↔ ∃ a, o = some a ∧ f a = some b := by
  cases o <;> simp

/-! ## A small concrete inventory (mirrors the `basic` fixture of
`lockers_test.go`): three classes, the largest with an exhausted free
list. -/

def invB : Inventory :=
  { lockers := [⟨"1", 1, none⟩, ⟨"2", 2, none⟩],
    control := [(1, ⟨1, ⟨1, 1, 1⟩, [], [2, 3], [0], 2⟩),
                (2, ⟨2, ⟨2, 2, 2⟩, [1], [3], [1], 1⟩),
                (3, ⟨3, ⟨3, 3, 3⟩, [1, 2], [], [], 0⟩)],
    sizes := [(⟨1, 1, 1⟩, 1), (⟨2, 2, 2⟩, 2), (⟨3, 3, 3⟩, 3)],
    lockersById := [("1", 0), ("2", 1)],
    lockersByPackageId := [] }

/-! ## Claim C10 — `GetMostSuitableLockerSize` is a pure query -/

/-- C10: whether it succeeds or fails, `GetMostSuitableLockerSize` returns
the inventory unchanged — its body only reads the size map, the control
blocks and their free lists. -/
theorem getMostSuitable_pure (inv : Inventory) (ps : SizeSpec)
    (r : Except String LockerSize) (inv' : Inventory)
    (h : inv.GetMostSuitableLockerSize ps = some (r, inv')) : inv' = inv := by
  unfold Inventory.GetMostSuitableLockerSize at h
  rw [optBind_eq_some] at h
  obtain ⟨cands, hbc, h⟩ := h
  cases cands with
  | nil =>
    simp only [Option.some.injEq, Prod.mk.injEq] at h
    exact h.2.symm
  | cons c rest =>
    have h2 : (chooseLoop inv c rest >>= fun chosen_id =>
        some ((Except.ok chosen_id : Except String LockerSize), inv)) = some (r, inv') := h
    rw [optBind_eq_some] at h2
    obtain ⟨chosen, _, h2⟩ := h2
    simp only [Option.some.injEq, Prod.mk.injEq] at h2
    exact h2.2.symm

theorem getMostSuitable_pure_witness :
    (invB.GetMostSuitableLockerSize ⟨1, 1, 1⟩ =
      some (.ok 1, invB)) ∧ invB = invB :=
  ⟨rfl, getMostSuitable_pure invB ⟨1, 1, 1⟩ (.ok 1) invB rfl⟩

/-! ## Claim C7 — failed deposits leave the inventory unchanged -/

/-- C7: whenever `DepositPackage` returns an error — duplicate package
identifier, no fitting non-full class, or a failed `Put` — the returned
inventory is exactly the input inventory: no free list, virtual capacity or
identifier map is modified. -/
theorem deposit_error_frame (inv : Inventory) (pkg : Package) (e : String) (inv' : Inventory)
    (h : inv.DepositPackage pkg = some (.error e, inv')) : inv' = inv := by
  unfold Inventory.DepositPackage at h
  cases hdup : lookupA inv.lockersByPackageId pkg.id with
  | some x =>
    rw [hdup] at h
    simp only [Option.some.injEq, Prod.mk.injEq] at h
    exact h.2.symm
  | none =>
    rw [hdup] at h
    rw [optBind_eq_some] at h
    obtain ⟨⟨r, inv2⟩, hgms, h⟩ := h
    obtain rfl : inv2 = inv := getMostSuitable_pure _ _ _ _ hgms
    cases r with
    | error e2 =>
      simp only [Option.some.injEq, Prod.mk.injEq] at h
      exact h.2.symm
    | ok chosen =>
      rw [optBind_eq_some] at h
      obtain ⟨ctrl, _, h⟩ := h
      rw [optBind_eq_some] at h
      obtain ⟨idx, _, h⟩ := h
      rw [optBind_eq_some] at h
      obtain ⟨lk, _, h⟩ := h
      cases hput : lk.Put pkg with
      | error e2 =>
        rw [hput] at h
        simp only [Option.some.injEq, Prod.mk.injEq] at h
        exact h.2.symm
      | ok pr =>
        rw [hput] at h
        rw [optBind_eq_some] at h
        obtain ⟨⟨i2, inv3⟩, _, h⟩ := h
        rw [optBind_eq_some] at h
        obtain ⟨lk2, _, h⟩ := h
        simp only [Option.some.injEq, Prod.mk.injEq] at h
        cases h.1

theorem deposit_error_frame_witness :
    (invB.DepositPackage ⟨"p", ⟨3, 3, 3⟩, false⟩ =
      some (.error "No available lockers which can fit package", invB)) ∧ invB = invB :=
  ⟨rfl, deposit_error_frame invB ⟨"p", ⟨3, 3, 3⟩, false⟩
    "No available lockers which can fit package" invB rfl⟩

/-! ## Behaviour of the capacity-adjustment and allocation primitives -/

theorem optSome_bind {α β : Type} (a : α) (f : α → Option β) : (some a >>= f) = f a := rfl

theorem lookupA_map_pairfun (l : List (LockerSize × LockerControlSpec)) (k : LockerSize)
    (g : LockerSize → LockerControlSpec → LockerControlSpec) :
    lookupA (l.map fun p => (p.1, g p.1 p.2)) k = (lookupA l k).map (g k) := by
  induction l with
  | nil => simp [lookupA]
  | cons p rest ih =>
    by_cases hp : p.1 = k
    · simp [lookupA, hp]
    · simp [lookupA, hp, ih]

/-- Effect of `adjustLoop`: every class's virtual capacity moves by `amt`
once per occurrence of its identifier in `ids`; everything else is
untouched. -/
theorem adjustLoop_spec (ids : List LockerSize) : ∀ (inv : Inventory) (amt : Int),
    (∀ i ∈ ids, (lookupA inv.control i).isSome) →
    ∃ inv', adjustLoop inv ids amt = some inv' ∧
      inv'.control = inv.control.map (fun p => (p.1,
        { p.2 with virtualCapacity := p.2.virtualCapacity + amt * (ids.count p.1 : Int) })) ∧
      inv'.lockers = inv.lockers ∧ inv'.sizes = inv.sizes ∧
      inv'.lockersById = inv.lockersById ∧ inv'.lockersByPackageId = inv.lockersByPackageId := by
  induction ids with
  | nil =>
    intro inv amt _
    refine ⟨inv, rfl, ?_, rfl, rfl, rfl, rfl⟩
    have hid : ∀ p : LockerSize × LockerControlSpec,
        (p.1, { p.2 with virtualCapacity :=
          p.2.virtualCapacity + amt * (([] : List LockerSize).count p.1 : Int) }) = p := by
      intro p
      simp [List.count_nil]
    rw [List.map_congr_left (fun p _ => hid p)]
    simp
  | cons i rest ih =>
    intro inv amt h
    obtain ⟨c, hc⟩ := Option.isSome_iff_exists.mp (h i (List.mem_cons_self i rest))
    obtain ⟨inv', hrun, hctl, hl, hs, hb, hp⟩ := ih
      (inv.modifyControl i fun x => { x with virtualCapacity := x.virtualCapacity + amt })
      amt (by
        intro j hj
        rw [modifyControl_lookup]
        split
        · rename_i he
          rw [he, hc]
          rfl
        · exact h j (List.mem_cons_of_mem _ hj))
    refine ⟨inv', ?_, ?_, by simpa using hl, by simpa using hs,
      by simpa using hb, by simpa using hp⟩
    · simp only [adjustLoop, hc, optSome_bind]
      exact hrun
    · rw [hctl]
      show (inv.control.map _).map _ = _
      rw [List.map_map]
      apply List.map_congr_left
      intro p hp2
      simp only [Function.comp]
      by_cases hpi : p.1 = i
      · simp only [if_pos hpi, hpi, List.count_cons, beq_self_eq_true, if_true,
          Prod.mk.injEq, LockerControlSpec.mk.injEq, true_and, and_true]
        push_cast
        ring
      · have hbeq : (i == p.1) = false := beq_eq_false_iff_ne.mpr fun e => hpi e.symm
        simp only [if_neg hpi, List.count_cons, hbeq, Bool.false_eq_true, if_false,
          Nat.add_zero]

/-- Effect of `AdjustVirtualCapacity`: exactly the class itself and the
classes in its `BiggerThan` list move by `amt` (per occurrence). -/
theorem adjustVC_spec (inv : Inventory) (sid : LockerSize) (amt : Int) (c : LockerControlSpec)
    (hc : lookupA inv.control sid = some c)
    (hall : ∀ i ∈ c.biggerThan, (lookupA inv.control i).isSome) :
    ∃ inv', inv.AdjustVirtualCapacity sid amt = some inv' ∧
      inv'.control = inv.control.map (fun p => (p.1, { p.2 with virtualCapacity :=
        p.2.virtualCapacity +
          amt * ((if p.1 = sid then 1 else 0) + (c.biggerThan.count p.1 : Int)) })) ∧
      inv'.lockers = inv.lockers ∧ inv'.sizes = inv.sizes ∧
      inv'.lockersById = inv.lockersById ∧ inv'.lockersByPackageId = inv.lockersByPackageId := by
  obtain ⟨inv', hrun, hctl, hl, hs, hb, hp⟩ := adjustLoop_spec c.biggerThan
    (inv.modifyControl sid fun x => { x with virtualCapacity := x.virtualCapacity + amt }) amt (by
      intro j hj
      rw [modifyControl_lookup]
      split
      · rename_i he
        rw [he, hc]
        rfl
      · exact hall j hj)
  refine ⟨inv', ?_, ?_, by simpa using hl, by simpa using hs,
    by simpa using hb, by simpa using hp⟩
  · unfold Inventory.AdjustVirtualCapacity
    rw [hc, optSome_bind]
    exact hrun
  · rw [hctl]
    show (inv.control.map _).map _ = _
    rw [List.map_map]
    apply List.map_congr_left
    intro p hp2
    simp only [Function.comp]
    by_cases hpi : p.1 = sid
    · simp only [if_pos hpi, Prod.mk.injEq, LockerControlSpec.mk.injEq, true_and, and_true]
      ring
    · simp only [if_neg hpi, Prod.mk.injEq, LockerControlSpec.mk.injEq, true_and, and_true]
      ring

/-- Effect of `AllocateLocker` under its precondition: it pops the last free
index of the class and applies the −1 delta to the class and to everything
in its `BiggerThan` list. -/
theorem allocate_spec (inv : Inventory) (sid : LockerSize) (c : LockerControlSpec)
    (hc : lookupA inv.control sid = some c) (hne : c.lockers ≠ [])
    (hall : ∀ i ∈ c.biggerThan, (lookupA inv.control i).isSome) :
    ∃ inv', inv.AllocateLocker sid = some (c.lockers.getLast hne, inv') ∧
      inv'.control = inv.control.map (fun p => (p.1,
        { p.2 with
          lockers := if p.1 = sid then p.2.lockers.dropLast else p.2.lockers,
          virtualCapacity := p.2.virtualCapacity +
            (-1) * ((if p.1 = sid then 1 else 0) + (c.biggerThan.count p.1 : Int)) })) ∧
      inv'.lockers = inv.lockers ∧ inv'.sizes = inv.sizes ∧
      inv'.lockersById = inv.lockersById ∧ inv'.lockersByPackageId = inv.lockersByPackageId := by
  have hc1 : lookupA (inv.modifyControl sid fun x =>
      { x with lockers := x.lockers.dropLast }).control sid =
      some { c with lockers := c.lockers.dropLast } := by
    rw [modifyControl_lookup, if_pos rfl, hc]
    rfl
  obtain ⟨inv', hrun, hctl, hl, hs, hb, hp⟩ := adjustVC_spec
    (inv.modifyControl sid fun x => { x with lockers := x.lockers.dropLast }) sid (-1)
    { c with lockers := c.lockers.dropLast } hc1 (by
      intro j hj
      rw [modifyControl_lookup]
      split
      · rename_i he
        rw [he, hc]
        rfl
      · exact hall j hj)
  refine ⟨inv', ?_, ?_, by simpa using hl, by simpa using hs,
    by simpa using hb, by simpa using hp⟩
  · unfold Inventory.AllocateLocker
    rw [hc, optSome_bind, List.getLast?_eq_getLast_of_ne_nil hne, optSome_bind]
    show ((inv.modifyControl sid fun x =>
        { x with lockers := x.lockers.dropLast }).AdjustVirtualCapacity sid (-1) >>=
      fun inv2 => some (c.lockers.getLast hne, inv2)) = some (c.lockers.getLast hne, inv')
    rw [hrun]
    rfl
  · rw [hctl]
    show (inv.control.map _).map _ = _
    rw [List.map_map]
    apply List.map_congr_left
    intro p hp2
    simp only [Function.comp]
    by_cases hpi : p.1 = sid
    · simp only [if_pos hpi, Prod.mk.injEq, LockerControlSpec.mk.injEq, true_and, and_true]
    · simp only [if_neg hpi, Prod.mk.injEq, LockerControlSpec.mk.injEq, true_and, and_true]

/-- Effect of `DeallocateLocker` for an in-range index: it pushes the index
back on the owning class's free list and applies the +1 delta to that class
and to everything in its `BiggerThan` list. -/
theorem deallocate_spec (inv : Inventory) (idx : Nat) (lk : Locker)
    (hlk : inv.lockers[idx]? = some lk) (c : LockerControlSpec)
    (hc : lookupA inv.control lk.sizeId = some c)
    (hall : ∀ i ∈ c.biggerThan, (lookupA inv.control i).isSome) :
    ∃ inv', inv.DeallocateLocker idx = some inv' ∧
      inv'.control = inv.control.map (fun p => (p.1,
        { p.2 with
          lockers := if p.1 = lk.sizeId then p.2.lockers ++ [idx] else p.2.lockers,
          virtualCapacity := p.2.virtualCapacity +
            1 * ((if p.1 = lk.sizeId then 1 else 0) + (c.biggerThan.count p.1 : Int)) })) ∧
      inv'.lockers = inv.lockers ∧ inv'.sizes = inv.sizes ∧
      inv'.lockersById = inv.lockersById ∧ inv'.lockersByPackageId = inv.lockersByPackageId := by
  have hc1 : lookupA (inv.modifyControl lk.sizeId fun x =>
      { x with lockers := x.lockers ++ [idx] }).control lk.sizeId =
      some { c with lockers := c.lockers ++ [idx] } := by
    rw [modifyControl_lookup, if_pos rfl, hc]
    rfl
  obtain ⟨inv', hrun, hctl, hl, hs, hb, hp⟩ := adjustVC_spec
    (inv.modifyControl lk.sizeId fun x => { x with lockers := x.lockers ++ [idx] }) lk.sizeId 1
    { c with lockers := c.lockers ++ [idx] } hc1 (by
      intro j hj
      rw [modifyControl_lookup]
      split
      · rename_i he
        rw [he, hc]
        rfl
      · exact hall j hj)
  refine ⟨inv', ?_, ?_, by simpa using hl, by simpa using hs,
    by simpa using hb, by simpa using hp⟩
  · unfold Inventory.DeallocateLocker
    rw [hlk, optSome_bind, hc, optSome_bind]
    exact hrun
  · rw [hctl]
    show (inv.control.map _).map _ = _
    rw [List.map_map]
    apply List.map_congr_left
    intro p hp2
    simp only [Function.comp]
    by_cases hpi : p.1 = lk.sizeId
    · simp only [if_pos hpi, Prod.mk.injEq, LockerControlSpec.mk.injEq, true_and, and_true]
    · simp only [if_neg hpi, Prod.mk.injEq, LockerControlSpec.mk.injEq, true_and, and_true]

theorem inventory_ext {a b : Inventory} (h1 : a.lockers = b.lockers) (h2 : a.control = b.control)
    (h3 : a.sizes = b.sizes) (h4 : a.lockersById = b.lockersById)
    (h5 : a.lockersByPackageId = b.lockersByPackageId) : a = b := by
  cases a
  cases b
  simp_all

/-! ## Claim C8 — allocation preconditions and fatal faults -/

/-- C8: under the precondition that the class exists, its free list is
non-empty (and, as invariant 5 of the spec requires, its relation list
references existing classes), `AllocateLocker` completes without fault and
returns an index from that class's free list; on an unknown class or an
exhausted free list it is a fatal fault (`none`, a Go panic), and
`AdjustVirtualCapacity` on an unknown class is likewise a fatal fault. -/
theorem allocate_fault_props (inv : Inventory) (sid : LockerSize) :
    (∀ c, lookupA inv.control sid = some c → c.lockers ≠ [] →
      (∀ i ∈ c.biggerThan, (lookupA inv.control i).isSome) →
      ∃ idx inv', inv.AllocateLocker sid = some (idx, inv') ∧ idx ∈ c.lockers) ∧
    (lookupA inv.control sid = none → inv.AllocateLocker sid = none) ∧
    (∀ c, lookupA inv.control sid = some c → c.lockers = [] →
      inv.AllocateLocker sid = none) ∧
    (∀ amt : Int, lookupA inv.control sid = none →
      inv.AdjustVirtualCapacity sid amt = none) := by
  refine ⟨?_, ?_, ?_, ?_⟩
  · intro c hc hne hall
    obtain ⟨inv', hrun, _⟩ := allocate_spec inv sid c hc hne hall
    exact ⟨c.lockers.getLast hne, inv', hrun, List.getLast_mem hne⟩
  · intro h
    unfold Inventory.AllocateLocker
    rw [h]
    rfl
  · intro c hc he
    unfold Inventory.AllocateLocker
    rw [hc, optSome_bind, he]
    rfl
  · intro amt h
    unfold Inventory.AdjustVirtualCapacity
    rw [h]
    rfl

theorem allocate_fault_props_witness :
    (∃ idx inv', invB.AllocateLocker 2 = some (idx, inv') ∧ idx ∈ ([1] : List Nat)) ∧
    invB.AllocateLocker 5 = none ∧
    invB.AllocateLocker 3 = none ∧
    invB.AdjustVirtualCapacity 5 7 = none := by
  refine ⟨?_, (allocate_fault_props invB 5).2.1 rfl,
    (allocate_fault_props invB 3).2.2.1 ⟨3, ⟨3, 3, 3⟩, [1, 2], [], [], 0⟩ rfl rfl,
    (allocate_fault_props invB 5).2.2.2 7 rfl⟩
  exact (allocate_fault_props invB 2).1 ⟨2, ⟨2, 2, 2⟩, [1], [3], [1], 1⟩ rfl
    (by decide) (by decide)

/-! ## Claim C2 — the incremental capacity delta -/

/-- C2, corrected: when a compartment of class `S` is allocated, the −1
delta is applied to `VirtualCapacity(S)` and to `VirtualCapacity(T)` for
every class `T` that `S` strictly **contains** (the classes in `S`'s
`BiggerThan` list — strictly *smaller* classes, not the dominating classes
the claim names); every other class's capacity and free list are untouched,
the class `S` free list shrinks by exactly one, and deallocating the
returned index is the exact inverse, restoring the inventory. -/
theorem allocate_deallocate_capacity (inv : Inventory) (S : LockerSize)
    (cS : LockerControlSpec)
    (hknd : (inv.control.map Prod.fst).Nodup)
    (hc : lookupA inv.control S = some cS)
    (hne : cS.lockers ≠ [])
    (hnd : cS.biggerThan.Nodup)
    (hsub : ∀ T ∈ cS.biggerThan, ∃ cT, lookupA inv.control T = some cT ∧
      cT.size ≠ cS.size ∧ cS.size.Contains cT.size = true)
    (hcomplete : ∀ p ∈ inv.control, p.2.size ≠ cS.size → cS.size.Contains p.2.size = true →
      p.1 ∈ cS.biggerThan)
    (lk : Locker) (hlk : inv.lockers[cS.lockers.getLast hne]? = some lk)
    (hlks : lk.sizeId = S) :
    ∃ inv', inv.AllocateLocker S = some (cS.lockers.getLast hne, inv') ∧
      (∃ cS', lookupA inv'.control S = some cS' ∧
        cS'.lockers = cS.lockers.dropLast ∧
        cS'.lockers.length + 1 = cS.lockers.length ∧
        cS'.virtualCapacity = cS.virtualCapacity - 1) ∧
      (∀ T cT, lookupA inv.control T = some cT → T ≠ S →
        ∃ cT', lookupA inv'.control T = some cT' ∧ cT'.lockers = cT.lockers ∧
          cT'.virtualCapacity = cT.virtualCapacity -
            (if cT.size ≠ cS.size ∧ cS.size.Contains cT.size = true then 1 else 0)) ∧
      inv'.DeallocateLocker (cS.lockers.getLast hne) = some inv := by
  have hall : ∀ i ∈ cS.biggerThan, (lookupA inv.control i).isSome := by
    intro i hi
    obtain ⟨cT, hcT, _⟩ := hsub i hi
    rw [hcT]
    rfl
  obtain ⟨inv', hrun, hctl, hl, hs, hb, hp⟩ := allocate_spec inv S cS hc hne hall
  have hSnotmem : S ∉ cS.biggerThan := by
    intro hmem
    obtain ⟨cT, hcT, hne2, _⟩ := hsub S hmem
    rw [hc] at hcT
    obtain rfl := Option.some.inj hcT
    exact hne2 rfl
  have hcountS : cS.biggerThan.count S = 0 := List.count_eq_zero.mpr hSnotmem
  have hlook : ∀ T, lookupA inv'.control T = (lookupA inv.control T).map (fun v =>
      { v with lockers := if T = S then v.lockers.dropLast else v.lockers, virtualCapacity := v.virtualCapacity + (-1) * ((if T = S then 1 else 0) + (cS.biggerThan.count T : Int)) }) := by
    intro T
    rw [hctl]
    exact lookupA_map_pairfun inv.control T (fun k v =>
      { v with lockers := if k = S then v.lockers.dropLast else v.lockers, virtualCapacity := v.virtualCapacity + (-1) * ((if k = S then 1 else 0) + (cS.biggerThan.count k : Int)) })
  refine ⟨inv', hrun, ?_, ?_, ?_⟩
  · refine ⟨_, by rw [hlook S, hc]; rfl, ?_, ?_, ?_⟩
    · simp
    · simp only [List.length_dropLast]
      have := List.length_pos.mpr hne
      simp
      omega
    · simp [hcountS]
      omega
  · intro T cT hcT hTS
    rw [hlook T, hcT]
    refine ⟨_, rfl, by simp [if_neg hTS], ?_⟩
    by_cases hsm : cT.size ≠ cS.size ∧ cS.size.Contains cT.size = true
    · have hmem : T ∈ cS.biggerThan := hcomplete (T, cT) (lookupA_mem hcT) hsm.1 hsm.2
      rw [if_pos hsm]
      have hone : cS.biggerThan.count T = 1 := List.count_eq_one_of_mem hnd hmem
      simp only [if_neg hTS, hone]
      norm_num
      omega
    · have hnmem : T ∉ cS.biggerThan := by
        intro hmem
        obtain ⟨cT', hcT', hne2, hcont⟩ := hsub T hmem
        rw [hcT] at hcT'
        obtain rfl := Option.some.inj hcT'
        exact hsm ⟨hne2, hcont⟩
      rw [if_neg hsm]
      have hzero : cS.biggerThan.count T = 0 := List.count_eq_zero.mpr hnmem
      simp only [if_neg hTS, hzero]
      norm_num
  · have hlk' : inv'.lockers[cS.lockers.getLast hne]? = some lk := by
      rw [hl]
      exact hlk
    have hcS' : lookupA inv'.control lk.sizeId = some
        { cS with lockers := cS.lockers.dropLast, virtualCapacity := cS.virtualCapacity + (-1) * (1 + (cS.biggerThan.count S : Int)) } := by
      rw [hlks, hlook S, hc]
      simp
    obtain ⟨inv'', hrun2, hctl2, hl2, hs2, hb2, hp2⟩ := deallocate_spec inv'
      (cS.lockers.getLast hne) lk hlk' _ hcS' (by
        intro i hi
        rw [hlook i]
        obtain ⟨ci, hci⟩ := Option.isSome_iff_exists.mp (hall i hi)
        rw [hci]
        rfl)
    rw [hrun2]
    congr 1
    apply inventory_ext
    · rw [hl2, hl]
    · rw [hctl2, hctl, List.map_map]
      have hmapid : ∀ p ∈ inv.control,
          ((fun q : LockerSize × LockerControlSpec => (q.1,
            { q.2 with lockers := if q.1 = lk.sizeId then q.2.lockers ++ [cS.lockers.getLast hne] else q.2.lockers, virtualCapacity := q.2.virtualCapacity + 1 * ((if q.1 = lk.sizeId then 1 else 0) + ((LockerControlSpec.biggerThan { cS with lockers := cS.lockers.dropLast, virtualCapacity := cS.virtualCapacity + (-1) * (1 + (cS.biggerThan.count S : Int)) }).count q.1 : Int)) })) ∘
          (fun p : LockerSize × LockerControlSpec => (p.1,
            { p.2 with lockers := if p.1 = S then p.2.lockers.dropLast else p.2.lockers, virtualCapacity := p.2.virtualCapacity + (-1) * ((if p.1 = S then 1 else 0) + (cS.biggerThan.count p.1 : Int)) }))) p = p := by
        intro p hpmem
        obtain ⟨p1, p2⟩ := p
        simp only [Function.comp, hlks]
        by_cases hpi : p1 = S
        · have hpv : p2 = cS := by
            have hm := mem_lookupA hknd hpmem
            simp only at hm
            rw [hpi, hc] at hm
            exact (Option.some.inj hm).symm
          subst hpi
          subst hpv
          simp only [eq_self_iff_true, if_true, Prod.mk.injEq, true_and]
          rw [List.dropLast_append_getLast hne]
          have hv : p2.virtualCapacity + (-1) * ((1 : Int) + (p2.biggerThan.count p1 : Int)) + 1 * ((1 : Int) + (p2.biggerThan.count p1 : Int)) = p2.virtualCapacity := by ring
          rw [hv]
        · simp only [if_neg hpi, Prod.mk.injEq, true_and]
          have hv : p2.virtualCapacity + (-1) * ((0 : Int) + (cS.biggerThan.count p1 : Int)) + 1 * ((0 : Int) + (cS.biggerThan.count p1 : Int)) = p2.virtualCapacity := by ring
          rw [hv]
      rw [List.map_congr_left hmapid]
      simp
    · rw [hs2, hs]
    · rw [hb2, hb]
    · rw [hp2, hp]

/-- C2 counterexample: in `invB`, class 2's size `(2,2,2)` strictly contains
class 1's size `(1,1,1)` (class 2 dominates class 1), yet allocating a
compartment of class 1 leaves `VirtualCapacity(2)` at 1 instead of applying
the −1 delta the claim requires for every dominating class: the code
propagates the delta to the classes class 1 *contains*, not to those that
contain it. -/
theorem allocate_propagation_counterexample :
    ((invB.AllocateLocker 1).bind fun r =>
      (lookupA r.2.control 2).map fun c => c.virtualCapacity) = some 1 ∧
    (lookupA invB.control 2).map (fun c => c.virtualCapacity) = some 1 ∧
    SizeSpec.Contains ⟨2, 2, 2⟩ ⟨1, 1, 1⟩ = true ∧
    ¬ (⟨2, 2, 2⟩ : SizeSpec) = ⟨1, 1, 1⟩ := by
  decide

theorem allocate_deallocate_capacity_witness :
    ∃ inv', invB.AllocateLocker 2 = some (1, inv') ∧
      inv'.DeallocateLocker 1 = some invB := by
  obtain ⟨inv', hrun, _, _, hinv⟩ := allocate_deallocate_capacity invB 2
    ⟨2, ⟨2, 2, 2⟩, [1], [3], [1], 1⟩ (by decide) rfl (by decide) (by decide)
    (by decide)
    (by decide)
    ⟨"2", 2, none⟩ rfl rfl
  exact ⟨inv', hrun, hinv⟩

/-! ## Claims C5 and C6 — the selection policy -/

theorem buildCandidates_some (inv : Inventory) (ps : SizeSpec) :
    ∀ l : List (SizeSpec × LockerSize),
    (∀ p ∈ l, p.1.Contains ps = true → (lookupA inv.control p.2).isSome) →
    ∃ cands, buildCandidates inv ps l = some cands := by
  intro l
  induction l with
  | nil => exact fun _ => ⟨[], rfl⟩
  | cons p rest ih =>
    obtain ⟨size, sid⟩ := p
    intro h
    obtain ⟨cands, hrun⟩ := ih fun q hq hq2 => h q (List.mem_cons_of_mem _ hq) hq2
    by_cases hcont : size.Contains ps = true
    · obtain ⟨c, hc⟩ := Option.isSome_iff_exists.mp (h (size, sid) (List.mem_cons_self _ _) hcont)
      simp only [buildCandidates, hcont, if_true, hc]
      cases hfull : c.Full
      · exact ⟨sid :: cands, by simp [hrun]⟩
      · exact ⟨cands, by simp [hrun]⟩
    · simp only [buildCandidates, hcont, if_false, Bool.false_eq_true]
      exact ⟨cands, hrun⟩

theorem buildCandidates_mem (inv : Inventory) (ps : SizeSpec) :
    ∀ (l : List (SizeSpec × LockerSize)) (cands : List LockerSize),
    buildCandidates inv ps l = some cands →
    ∀ sid, (sid ∈ cands ↔ ∃ p ∈ l, p.2 = sid ∧ p.1.Contains ps = true ∧
      ∃ c, lookupA inv.control sid = some c ∧ c.Full = false) := by
  intro l
  induction l with
  | nil =>
    intro cands hrun sid
    obtain rfl : cands = [] := by
      simpa [buildCandidates] using hrun.symm
    simp
  | cons p rest ih =>
    obtain ⟨size, sid0⟩ := p
    intro cands hrun sid
    by_cases hcont : size.Contains ps = true
    · simp only [buildCandidates, hcont, if_true] at hrun
      cases hc : lookupA inv.control sid0 with
      | none => rw [hc] at hrun; cases hrun
      | some c =>
        rw [hc] at hrun
        dsimp only at hrun
        cases hfull : c.Full
        · rw [hfull] at hrun
          simp only [Bool.false_eq_true, if_false, Option.map_eq_some'] at hrun
          obtain ⟨cands0, hrun0, rfl⟩ := hrun
          constructor
          · intro hmem
            rcases List.mem_cons.mp hmem with rfl | hmem0
            · exact ⟨(size, sid), List.mem_cons_self _ _, rfl, hcont, c, hc, hfull⟩
            · obtain ⟨q, hq, hq2, hq3, hq4⟩ := (ih cands0 hrun0 sid).mp hmem0
              exact ⟨q, List.mem_cons_of_mem _ hq, hq2, hq3, hq4⟩
          · rintro ⟨q, hq, rfl, hq3, cq, hcq, hfq⟩
            rcases List.mem_cons.mp hq with heq | hq0
            · obtain ⟨rfl, rfl⟩ : size = q.1 ∧ sid0 = q.2 := by
                cases q
                cases heq
                exact ⟨rfl, rfl⟩
              exact List.mem_cons_self _ _
            · exact List.mem_cons_of_mem _
                ((ih cands0 hrun0 q.2).mpr ⟨q, hq0, rfl, hq3, cq, hcq, hfq⟩)
        · rw [hfull] at hrun
          simp only [if_true] at hrun
          rw [ih cands hrun sid]
          constructor
          · rintro ⟨q, hq, hq2, hq3, hq4⟩
            exact ⟨q, List.mem_cons_of_mem _ hq, hq2, hq3, hq4⟩
          · rintro ⟨q, hq, rfl, hq3, cq, hcq, hfq⟩
            rcases List.mem_cons.mp hq with heq | hq0
            · exfalso
              obtain ⟨rfl, rfl⟩ : size = q.1 ∧ sid0 = q.2 := by
                cases q
                cases heq
                exact ⟨rfl, rfl⟩
              rw [hc] at hcq
              obtain rfl := Option.some.inj hcq
              rw [hfull] at hfq
              cases hfq
            · exact ⟨q, hq0, rfl, hq3, cq, hcq, hfq⟩
    · simp only [buildCandidates, hcont, if_false, Bool.false_eq_true] at hrun
      rw [ih cands hrun sid]
      constructor
      · rintro ⟨q, hq, hq2, hq3, hq4⟩
        exact ⟨q, List.mem_cons_of_mem _ hq, hq2, hq3, hq4⟩
      · rintro ⟨q, hq, rfl, hq3, cq, hcq, hfq⟩
        rcases List.mem_cons.mp hq with heq | hq0
        · exfalso
          obtain ⟨rfl, rfl⟩ : size = q.1 ∧ sid0 = q.2 := by
            cases q
            cases heq
            exact ⟨rfl, rfl⟩
          exact hcont hq3
        · exact ⟨q, hq0, rfl, hq3, cq, hcq, hfq⟩

/-- Evaluation of `Before` when both classes exist. -/
theorem before_eval {inv : Inventory} {a b : LockerSize} {ca cb : LockerControlSpec}
    (ha : lookupA inv.control a = some ca) (hb : lookupA inv.control b = some cb) :
    LockerSize.Before a b inv = some (decide (ca.virtualCapacity > cb.virtualCapacity ∨
      (ca.virtualCapacity = cb.virtualCapacity ∧ ca.size.Volume < cb.size.Volume))) := by
  unfold LockerSize.Before
  rw [ha, optSome_bind, hb, optSome_bind]
  split_ifs with h1 h2
  · simp [h1]
  · simp [h1, h2]
  · simp only [Option.some.injEq]
    have : ¬ (ca.virtualCapacity > cb.virtualCapacity ∨
        (ca.virtualCapacity = cb.virtualCapacity ∧ ca.size.Volume < cb.size.Volume)) := by
      rintro (hx | hx)
      · exact h1 hx
      · exact h2 hx
    simp [this]

/-- The linear scan returns a candidate no other candidate sorts strictly
before (the minimum of the strict weak order induced by `Before`). -/
theorem chooseLoop_spec (inv : Inventory) :
    ∀ (l : List LockerSize) (cur : LockerSize),
    (∀ i ∈ cur :: l, ∃ ci, lookupA inv.control i = some ci) →
    ∃ chosen, chooseLoop inv cur l = some chosen ∧ (chosen = cur ∨ chosen ∈ l) ∧
      (∀ i ∈ cur :: l, ¬ LockerSize.Before i chosen inv = some true) := by
  intro l
  induction l with
  | nil =>
    intro cur h
    obtain ⟨c, hc⟩ := h cur (List.mem_cons_self _ _)
    refine ⟨cur, rfl, Or.inl rfl, ?_⟩
    intro i hi
    obtain rfl : i = cur := by simpa using hi
    rw [before_eval hc hc]
    simp
  | cons id rest ih =>
    intro cur h
    obtain ⟨ccur, hcur⟩ := h cur (List.mem_cons_self _ _)
    obtain ⟨cid, hid⟩ := h id (by simp)
    have hb := before_eval hid hcur
    set b : Bool := decide (cid.virtualCapacity > ccur.virtualCapacity ∨
      (cid.virtualCapacity = ccur.virtualCapacity ∧ cid.size.Volume < ccur.size.Volume)) with hbdef
    obtain ⟨chosen, hrun, hmem, hmin⟩ := ih (if b then id else cur) (by
      intro i hi
      rcases List.mem_cons.mp hi with rfl | hi0
      · by_cases hbb : b = true
        · rw [if_pos hbb]
          exact ⟨cid, hid⟩
        · rw [if_neg hbb]
          exact ⟨ccur, hcur⟩
      · exact h i (by simp [hi0]))
    have hrun2 : chooseLoop inv cur (id :: rest) = some chosen := by
      simp only [chooseLoop, hb, optSome_bind]
      exact hrun
    obtain ⟨cch, hch⟩ : ∃ cch, lookupA inv.control chosen = some cch := by
      rcases hmem with rfl | hm
      · by_cases hbb : b = true
        · rw [if_pos hbb]
          exact ⟨cid, hid⟩
        · rw [if_neg hbb]
          exact ⟨ccur, hcur⟩
      · exact h chosen (by simp [hm])
    have hnotchosen : ¬ LockerSize.Before (if b then id else cur) chosen inv = some true :=
      hmin _ (List.mem_cons_self _ _)
    refine ⟨chosen, hrun2, ?_, ?_⟩
    · rcases hmem with hm | hm
      · by_cases hbb : b = true
        · rw [if_pos hbb] at hm
          exact Or.inr (hm ▸ List.mem_cons_self _ _)
        · rw [if_neg hbb] at hm
          exact Or.inl hm
      · exact Or.inr (List.mem_cons_of_mem _ hm)
    · intro i hi
      rcases List.mem_cons.mp hi with rfl | hi0
      · -- i = cur
        by_cases hbb : b = true
        · -- Before id cur holds and chosen is minimal below id; use transitivity
          rw [before_eval hcur hch]
          rw [if_pos hbb] at hnotchosen
          rw [before_eval hid hch] at hnotchosen
          have hbtrue : cid.virtualCapacity > ccur.virtualCapacity ∨
              (cid.virtualCapacity = ccur.virtualCapacity ∧
                cid.size.Volume < ccur.size.Volume) := by
            have := hbdef
            rw [hbb] at this
            exact of_decide_eq_true this.symm
          simp only [Option.some.injEq, decide_eq_true_eq] at hnotchosen ⊢
          intro hcontra
          apply hnotchosen
          rcases hbtrue with h1 | ⟨h1, h1v⟩ <;> rcases hcontra with h2 | ⟨h2, h2v⟩ <;> omega
        · rw [if_neg hbb] at hnotchosen
          exact hnotchosen
      · rcases List.mem_cons.mp hi0 with rfl | hi1
        · -- i = id
          by_cases hbb : b = true
          · rw [if_pos hbb] at hnotchosen
            exact hnotchosen
          · -- ¬ Before id cur, and chosen minimal below cur: transitivity again
            rw [if_neg hbb] at hnotchosen
            rw [before_eval hid hch]
            rw [before_eval hcur hch] at hnotchosen
            have hbfalse : ¬ (cid.virtualCapacity > ccur.virtualCapacity ∨
                (cid.virtualCapacity = ccur.virtualCapacity ∧
                  cid.size.Volume < ccur.size.Volume)) := by
              intro hx
              exact hbb (hbdef ▸ decide_eq_true hx)
            simp only [Option.some.injEq, decide_eq_true_eq] at hnotchosen ⊢
            intro hcontra
            apply hnotchosen
            push_neg at hbfalse
            rcases hcontra with h2 | ⟨h2, h2v⟩
            · left
              omega
            · obtain ⟨hf1, hf2⟩ := hbfalse
              by_cases heq : cid.virtualCapacity = ccur.virtualCapacity
              · right
                exact ⟨by omega, by have := hf2 heq; omega⟩
              · left
                omega
        · exact hmin i (by simp [hi1])

/-- C5: assuming each size entry that can contain the request has its
control block (spec invariant 1), `GetMostSuitableLockerSize` completes
without fault, leaves the inventory unchanged, and returns an error exactly
when no size class both contains the requested size and has a non-empty
free list — covering both "nothing big enough" and "big enough but
exhausted"; it succeeds whenever some class contains the request and is not
`Full`. -/
theorem getMostSuitable_error_iff (inv : Inventory) (ps : SizeSpec)
    (hWF : ∀ p ∈ inv.sizes, p.1.Contains ps = true → (lookupA inv.control p.2).isSome) :
    ∃ r, inv.GetMostSuitableLockerSize ps = some (r, inv) ∧
      ((∃ e, r = Except.error e) ↔
        ∀ p ∈ inv.sizes, ¬(p.1.Contains ps = true ∧
          ∃ c, lookupA inv.control p.2 = some c ∧ c.Full = false)) := by
  obtain ⟨cands, hrun⟩ := buildCandidates_some inv ps inv.sizes hWF
  have hmem := buildCandidates_mem inv ps inv.sizes cands hrun
  cases cands with
  | nil =>
    refine ⟨.error "No available lockers which can fit package", ?_, ?_⟩
    · unfold Inventory.GetMostSuitableLockerSize
      rw [hrun, optSome_bind]
    · constructor
      · rintro _ p hp ⟨hcont, c, hc, hfull⟩
        have : p.2 ∈ ([] : List LockerSize) :=
          (hmem p.2).mpr ⟨p, hp, rfl, hcont, c, hc, hfull⟩
        simp at this
      · intro _
        exact ⟨_, rfl⟩
  | cons c0 rest =>
    have hpres : ∀ i ∈ c0 :: rest, ∃ ci, lookupA inv.control i = some ci := by
      intro i hi
      obtain ⟨p, hp, hpe, hcont, ci, hci, _⟩ := (hmem i).mp hi
      exact ⟨ci, hci⟩
    obtain ⟨chosen, hcl, _, _⟩ := chooseLoop_spec inv rest c0 hpres
    refine ⟨.ok chosen, ?_, ?_⟩
    · unfold Inventory.GetMostSuitableLockerSize
      rw [hrun, optSome_bind]
      show (chooseLoop inv c0 rest >>= fun chosen_id =>
        some ((Except.ok chosen_id : Except String LockerSize), inv)) = _
      rw [hcl]
      rfl
    · constructor
      · rintro ⟨e, he⟩
        cases he
      · intro hall
        exfalso
        obtain ⟨p, hp, hpe, hcont, ci, hci, hfull⟩ := (hmem c0).mp (List.mem_cons_self _ _)
        exact hall p hp ⟨hcont, ci, by rw [hpe]; exact hci, hfull⟩

theorem getMostSuitable_error_iff_witness :
    ∃ r, invB.GetMostSuitableLockerSize ⟨1, 1, 1⟩ = some (r, invB) ∧
      ((∃ e, r = Except.error e) ↔
        ∀ p ∈ invB.sizes, ¬(p.1.Contains ⟨1, 1, 1⟩ = true ∧
          ∃ c, lookupA invB.control p.2 = some c ∧ c.Full = false)) :=
  getMostSuitable_error_iff invB ⟨1, 1, 1⟩ (by decide)

/-- C6: when `GetMostSuitableLockerSize` succeeds, the returned class is one
of the candidates collected by `buildCandidates`, and no candidate sorts
strictly `Before` it — it is minimal under the order "larger virtual
capacity first, then smaller volume", ties broken arbitrarily. -/
theorem getMostSuitable_minimal (inv : Inventory) (ps : SizeSpec) (chosen : LockerSize)
    (inv' : Inventory)
    (h : inv.GetMostSuitableLockerSize ps = some (.ok chosen, inv')) :
    ∃ cands, buildCandidates inv ps inv.sizes = some cands ∧ chosen ∈ cands ∧
      ∀ c ∈ cands, ¬ LockerSize.Before c chosen inv = some true := by
  unfold Inventory.GetMostSuitableLockerSize at h
  rw [optBind_eq_some] at h
  obtain ⟨cands, hrun, h⟩ := h
  cases cands with
  | nil =>
    simp only [Option.some.injEq, Prod.mk.injEq] at h
    cases h.1
  | cons c0 rest =>
    have h2 : (chooseLoop inv c0 rest >>= fun chosen_id =>
        some ((Except.ok chosen_id : Except String LockerSize), inv)) =
        some (.ok chosen, inv') := h
    rw [optBind_eq_some] at h2
    obtain ⟨ch, hcl, heq⟩ := h2
    simp only [Option.some.injEq, Prod.mk.injEq, Except.ok.injEq] at heq
    obtain ⟨rfl, rfl⟩ := heq
    have hmem := buildCandidates_mem inv ps inv.sizes _ hrun
    have hpres : ∀ i ∈ c0 :: rest, ∃ ci, lookupA inv.control i = some ci := by
      intro i hi
      obtain ⟨p, hp, hpe, hcont, ci, hci, _⟩ := (hmem i).mp hi
      exact ⟨ci, hci⟩
    obtain ⟨chosen2, hcl2, hmemc, hmin⟩ := chooseLoop_spec inv rest c0 hpres
    rw [hcl] at hcl2
    obtain rfl := Option.some.inj hcl2
    refine ⟨c0 :: rest, hrun, ?_, hmin⟩
    rcases hmemc with rfl | hm
    · exact List.mem_cons_self _ _
    · exact List.mem_cons_of_mem _ hm

theorem getMostSuitable_minimal_witness :
    ∃ cands, buildCandidates invB ⟨1, 1, 1⟩ invB.sizes = some cands ∧
      (1 : LockerSize) ∈ cands ∧
      ∀ c ∈ cands, ¬ LockerSize.Before c 1 invB = some true :=
  getMostSuitable_minimal invB ⟨1, 1, 1⟩ 1 invB rfl

/-! ## Claim C4 — retrieval -/

/-- Inversion of `RetrievePackageInternal`: with `ok = false` it returns the
unknown-identifier error and the unchanged inventory; with `ok = true` any
error it returns is not the unknown-identifier error (and leaves the
inventory unchanged), and success means the package was fetched out of the
locker, the locker deallocated and the reverse mapping removed. -/
theorem retrieveInternal_spec (inv : Inventory) (idx : Nat) :
    (inv.RetrievePackageInternal idx false = some (.error "Package ID not known", inv)) ∧
    (∀ r inv'', inv.RetrievePackageInternal idx true = some (r, inv'') →
      (∀ e, r = .error e → e ≠ "Package ID not known" ∧ inv'' = inv) ∧
      (∀ p, r = .ok p → ∃ lk pkg0 invD,
        inv.lockers[idx]? = some lk ∧ lk.contents = some pkg0 ∧
        p = { pkg0 with storedIn := false } ∧
        Inventory.DeallocateLocker
          { inv with lockers := inv.lockers.set idx { lk with contents := none } } idx =
          some invD ∧
        inv'' = { invD with
          lockersByPackageId := eraseA invD.lockersByPackageId pkg0.id })) := by
  constructor
  · rfl
  · intro r inv'' h
    have h2 : (inv.lockers[idx]? >>= fun lk =>
        match lk.Fetch with
        | .error e => some ((.error e : Except String Package), inv)
        | .ok (lk', pkg) =>
          (Inventory.DeallocateLocker
            { inv with lockers := inv.lockers.set idx lk' } idx) >>= fun invD =>
            some (.ok pkg, { invD with
              lockersByPackageId := eraseA invD.lockersByPackageId pkg.id })) =
        some (r, inv'') := h
    rw [optBind_eq_some] at h2
    obtain ⟨lk, hlk, h2⟩ := h2
    cases hlc : lk.contents with
    | none =>
      rw [show lk.Fetch = .error "Tried to fetch from empty locker" from by
        unfold Locker.Fetch; rw [hlc]] at h2
      simp only [Option.some.injEq, Prod.mk.injEq] at h2
      constructor
      · intro e he
        obtain rfl : e = "Tried to fetch from empty locker" := by
          rw [← h2.1] at he
          exact (Except.error.inj he).symm
        exact ⟨by decide, h2.2.symm⟩
      · intro p hp
        rw [← h2.1] at hp
        cases hp
    | some pkg0 =>
      rw [show lk.Fetch = .ok ({ lk with contents := none },
        { pkg0 with storedIn := false }) from by
        unfold Locker.Fetch; rw [hlc]] at h2
      rw [optBind_eq_some] at h2
      obtain ⟨invD, hde, h2⟩ := h2
      simp only [Option.some.injEq, Prod.mk.injEq] at h2
      constructor
      · intro e he
        rw [← h2.1] at he
        cases he
      · intro p hp
        rw [← h2.1] at hp
        obtain rfl := Except.ok.inj hp
        exact ⟨lk, pkg0, invD, hlk, hlc, rfl, hde, h2.2.symm⟩

/-- C4: both retrieval entry points fail with the unknown-identifier error
exactly when the identifier is not registered in the respective map, leaving
the inventory unchanged; on success they fetch the package out of its
locker, deallocate that locker, remove the package-identifier reverse
mapping, and return the package (with its back-reference cleared). -/
theorem retrieve_spec (inv : Inventory) (id : String) :
    ((inv.RetrievePackageById id = some (.error "Package ID not known", inv)) ↔
      lookupA inv.lockersByPackageId id = none) ∧
    ((inv.RetrievePackageByLockerId id = some (.error "Package ID not known", inv)) ↔
      lookupA inv.lockersById id = none) ∧
    (∀ p inv'', inv.RetrievePackageById id = some (.ok p, inv'') →
      ∃ idx lk pkg0 invD,
        lookupA inv.lockersByPackageId id = some idx ∧
        inv.lockers[idx]? = some lk ∧ lk.contents = some pkg0 ∧
        p = { pkg0 with storedIn := false } ∧
        Inventory.DeallocateLocker
          { inv with lockers := inv.lockers.set idx { lk with contents := none } } idx =
          some invD ∧
        inv'' = { invD with
          lockersByPackageId := eraseA invD.lockersByPackageId pkg0.id }) ∧
    (∀ p inv'', inv.RetrievePackageByLockerId id = some (.ok p, inv'') →
      ∃ idx lk pkg0 invD,
        lookupA inv.lockersById id = some idx ∧
        inv.lockers[idx]? = some lk ∧ lk.contents = some pkg0 ∧
        p = { pkg0 with storedIn := false } ∧
        Inventory.DeallocateLocker
          { inv with lockers := inv.lockers.set idx { lk with contents := none } } idx =
          some invD ∧
        inv'' = { invD with
          lockersByPackageId := eraseA invD.lockersByPackageId pkg0.id }) := by
  refine ⟨?_, ?_, ?_, ?_⟩
  · constructor
    · intro h
      cases hl : lookupA inv.lockersByPackageId id with
      | none => rfl
      | some lid =>
        exfalso
        unfold Inventory.RetrievePackageById at h
        rw [hl] at h
        have := ((retrieveInternal_spec inv lid).2 _ _ h).1 _ rfl
        exact this.1 rfl
    · intro hl
      unfold Inventory.RetrievePackageById
      rw [hl]
      exact (retrieveInternal_spec inv 0).1
  · constructor
    · intro h
      cases hl : lookupA inv.lockersById id with
      | none => rfl
      | some lid =>
        exfalso
        unfold Inventory.RetrievePackageByLockerId at h
        rw [hl] at h
        have := ((retrieveInternal_spec inv lid).2 _ _ h).1 _ rfl
        exact this.1 rfl
    · intro hl
      unfold Inventory.RetrievePackageByLockerId
      rw [hl]
      exact (retrieveInternal_spec inv 0).1
  · intro p inv'' h
    cases hl : lookupA inv.lockersByPackageId id with
    | none =>
      exfalso
      unfold Inventory.RetrievePackageById at h
      rw [hl, (retrieveInternal_spec inv 0).1] at h
      simp only [Option.some.injEq, Prod.mk.injEq] at h
      cases h.1
    | some lid =>
      unfold Inventory.RetrievePackageById at h
      rw [hl] at h
      obtain ⟨lk, pkg0, invD, h1, h2, h3, h4, h5⟩ :=
        ((retrieveInternal_spec inv lid).2 _ _ h).2 _ rfl
      exact ⟨lid, lk, pkg0, invD, rfl, h1, h2, h3, h4, h5⟩
  · intro p inv'' h
    cases hl : lookupA inv.lockersById id with
    | none =>
      exfalso
      unfold Inventory.RetrievePackageByLockerId at h
      rw [hl, (retrieveInternal_spec inv 0).1] at h
      simp only [Option.some.injEq, Prod.mk.injEq] at h
      cases h.1
    | some lid =>
      unfold Inventory.RetrievePackageByLockerId at h
      rw [hl] at h
      obtain ⟨lk, pkg0, invD, h1, h2, h3, h4, h5⟩ :=
        ((retrieveInternal_spec inv lid).2 _ _ h).2 _ rfl
      exact ⟨lid, lk, pkg0, invD, rfl, h1, h2, h3, h4, h5⟩

/-- `invB` after `"p1"` (a `1×1×1` package) has been deposited into locker
index 0. -/
def invC : Inventory :=
  { lockers := [⟨"1", 1, some ⟨"p1", ⟨1, 1, 1⟩, true⟩⟩, ⟨"2", 2, none⟩],
    control := [(1, ⟨1, ⟨1, 1, 1⟩, [], [2, 3], [], 1⟩),
                (2, ⟨2, ⟨2, 2, 2⟩, [1], [3], [1], 1⟩),
                (3, ⟨3, ⟨3, 3, 3⟩, [1, 2], [], [], 0⟩)],
    sizes := [(⟨1, 1, 1⟩, 1), (⟨2, 2, 2⟩, 2), (⟨3, 3, 3⟩, 3)],
    lockersById := [("1", 0), ("2", 1)],
    lockersByPackageId := [("p1", 0)] }

theorem retrieve_spec_witness :
    (invC.RetrievePackageById "zz" = some (.error "Package ID not known", invC)) ∧
    (∃ idx lk pkg0 invD,
      lookupA invC.lockersByPackageId "p1" = some idx ∧
      invC.lockers[idx]? = some lk ∧ lk.contents = some pkg0 ∧
      (⟨"p1", ⟨1, 1, 1⟩, false⟩ : Package) = { pkg0 with storedIn := false } ∧
      Inventory.DeallocateLocker
        { invC with lockers := invC.lockers.set idx { lk with contents := none } } idx =
        some invD ∧
      invB = { invD with
        lockersByPackageId := eraseA invD.lockersByPackageId pkg0.id }) := by
  refine ⟨(retrieve_spec invC "zz").1.mpr rfl, ?_⟩
  exact (retrieve_spec invC "p1").2.2.1 ⟨"p1", ⟨1, 1, 1⟩, false⟩ invB rfl

/-! ## Claim C3 — deposit/retrieve round trip -/

theorem getElem?_some_lt {α : Type} {l : List α} {i : Nat} {a : α}
    (h : l[i]? = some a) : i < l.length := by
  by_contra hlt
  rw [List.getElem?_eq_none (by omega)] at h
  cases h

theorem set_getElem_self {α : Type} {l : List α} {i : Nat} {a : α}
    (h : l[i]? = some a) : l.set i a = l := by
  apply List.ext_getElem?
  intro j
  by_cases hji : j = i
  · subst hji
    rw [List.getElem?_set_self (getElem?_some_lt h)]
    exact h.symm
  · rw [List.getElem?_set_ne fun e => hji e.symm]

/-- Deallocating the just-popped index of class `S` on any inventory whose
control table is in the post-allocation state restores the original control
table (the free list gets its last index back, every capacity delta is
undone) and touches nothing else. -/
theorem deallocate_after_allocate (inv invA : Inventory) (S : LockerSize)
    (cS : LockerControlSpec) (idx : Nat)
    (hknd : (inv.control.map Prod.fst).Nodup)
    (hc : lookupA inv.control S = some cS)
    (hne : cS.lockers ≠ [])
    (hidx : idx = cS.lockers.getLast hne)
    (hall : ∀ i ∈ cS.biggerThan, (lookupA inv.control i).isSome)
    (hctlA : invA.control = inv.control.map (fun p => (p.1,
      { p.2 with lockers := if p.1 = S then p.2.lockers.dropLast else p.2.lockers, virtualCapacity := p.2.virtualCapacity + (-1) * ((if p.1 = S then 1 else 0) + (cS.biggerThan.count p.1 : Int)) })))
    (lk : Locker) (hlkA : invA.lockers[idx]? = some lk) (hlks : lk.sizeId = S) :
    ∃ invD, invA.DeallocateLocker idx = some invD ∧
      invD.control = inv.control ∧ invD.lockers = invA.lockers ∧
      invD.sizes = invA.sizes ∧ invD.lockersById = invA.lockersById ∧
      invD.lockersByPackageId = invA.lockersByPackageId := by
  have hlookA : ∀ T, lookupA invA.control T = (lookupA inv.control T).map (fun v =>
      { v with lockers := if T = S then v.lockers.dropLast else v.lockers, virtualCapacity := v.virtualCapacity + (-1) * ((if T = S then 1 else 0) + (cS.biggerThan.count T : Int)) }) := by
    intro T
    rw [hctlA]
    exact lookupA_map_pairfun inv.control T (fun k v =>
      { v with lockers := if k = S then v.lockers.dropLast else v.lockers, virtualCapacity := v.virtualCapacity + (-1) * ((if k = S then 1 else 0) + (cS.biggerThan.count k : Int)) })
  have hcA : lookupA invA.control lk.sizeId = some
      { cS with lockers := cS.lockers.dropLast, virtualCapacity := cS.virtualCapacity + (-1) * (1 + (cS.biggerThan.count S : Int)) } := by
    rw [hlks, hlookA S, hc]
    simp
  obtain ⟨invD, hrunD, hctlD, hlD, hsD, hbD, hpD⟩ := deallocate_spec invA idx lk hlkA _ hcA
    (by
      intro i hi
      rw [hlookA i]
      obtain ⟨ci, hci⟩ := Option.isSome_iff_exists.mp (hall i hi)
      rw [hci]
      rfl)
  refine ⟨invD, hrunD, ?_, hlD, hsD, hbD, hpD⟩
  rw [hctlD, hctlA, List.map_map]
  have hmapid : ∀ p ∈ inv.control,
      ((fun q : LockerSize × LockerControlSpec => (q.1,
        { q.2 with lockers := if q.1 = lk.sizeId then q.2.lockers ++ [idx] else q.2.lockers, virtualCapacity := q.2.virtualCapacity + 1 * ((if q.1 = lk.sizeId then 1 else 0) + ((LockerControlSpec.biggerThan { cS with lockers := cS.lockers.dropLast, virtualCapacity := cS.virtualCapacity + (-1) * (1 + (cS.biggerThan.count S : Int)) }).count q.1 : Int)) })) ∘
      (fun p : LockerSize × LockerControlSpec => (p.1,
        { p.2 with lockers := if p.1 = S then p.2.lockers.dropLast else p.2.lockers, virtualCapacity := p.2.virtualCapacity + (-1) * ((if p.1 = S then 1 else 0) + (cS.biggerThan.count p.1 : Int)) }))) p = p := by
    intro p hpmem
    obtain ⟨p1, p2⟩ := p
    simp only [Function.comp, hlks]
    by_cases hpi : p1 = S
    · have hpv : p2 = cS := by
        have hm := mem_lookupA hknd hpmem
        simp only at hm
        rw [hpi, hc] at hm
        exact (Option.some.inj hm).symm
      subst hpi
      subst hpv
      simp only [eq_self_iff_true, if_true, Prod.mk.injEq, true_and]
      rw [hidx, List.dropLast_append_getLast hne]
      have hv : p2.virtualCapacity + (-1) * ((1 : Int) + (p2.biggerThan.count p1 : Int)) + 1 * ((1 : Int) + (p2.biggerThan.count p1 : Int)) = p2.virtualCapacity := by ring
      rw [hv]
    · simp only [if_neg hpi, Prod.mk.injEq, true_and]
      have hv : p2.virtualCapacity + (-1) * ((0 : Int) + (cS.biggerThan.count p1 : Int)) + 1 * ((0 : Int) + (cS.biggerThan.count p1 : Int)) = p2.virtualCapacity := by ring
      rw [hv]
  rw [List.map_congr_left hmapid]
  simp

/-- A successful `adjustLoop` run requires every visited class to exist. -/
theorem adjustLoop_present (ids : List LockerSize) : ∀ (inv : Inventory) (amt : Int)
    (inv' : Inventory), adjustLoop inv ids amt = some inv' →
    ∀ i ∈ ids, (lookupA inv.control i).isSome := by
  induction ids with
  | nil => intro inv amt inv' _ i hi; simp at hi
  | cons j rest ih =>
    intro inv amt inv' h i hi
    have h2 : (lookupA inv.control j >>= fun _ =>
        adjustLoop (inv.modifyControl j fun c =>
          { c with virtualCapacity := c.virtualCapacity + amt }) rest amt) = some inv' := h
    rw [optBind_eq_some] at h2
    obtain ⟨c, hc, hrest⟩ := h2
    rcases List.mem_cons.mp hi with rfl | hi0
    · rw [hc]; rfl
    · by_cases hji : i = j
      · rw [hji, hc]; rfl
      · have := ih _ _ _ hrest i hi0
        rw [modifyControl_lookup, if_neg hji] at this
        exact this

/-- A successful `AllocateLocker` run requires every class in the
`BiggerThan` list to exist. -/
theorem allocate_present (inv : Inventory) (sid : LockerSize) (a : Nat) (inv' : Inventory)
    (c : LockerControlSpec) (hc : lookupA inv.control sid = some c)
    (h : inv.AllocateLocker sid = some (a, inv')) :
    ∀ i ∈ c.biggerThan, (lookupA inv.control i).isSome := by
  unfold Inventory.AllocateLocker at h
  rw [hc, optSome_bind] at h
  rw [optBind_eq_some] at h
  obtain ⟨idx0, hidx0, h⟩ := h
  have h2 : ((inv.modifyControl sid fun x =>
      { x with lockers := x.lockers.dropLast }).AdjustVirtualCapacity sid (-1) >>=
      fun inv2 => some (idx0, inv2)) = some (a, inv') := h
  rw [optBind_eq_some] at h2
  obtain ⟨inv2, hadj, _⟩ := h2
  unfold Inventory.AdjustVirtualCapacity at hadj
  have hc2 : lookupA (inv.modifyControl sid fun x =>
      { x with lockers := x.lockers.dropLast }).control sid =
      some { c with lockers := c.lockers.dropLast } := by
    rw [modifyControl_lookup, if_pos rfl, hc]
    rfl
  rw [hc2, optSome_bind] at hadj
  intro i hi
  by_cases h1 : i = sid
  · rw [h1, hc]
    rfl
  · have := adjustLoop_present _ _ _ _ hadj i (by simpa using hi)
    rw [modifyControl_lookup, if_neg h1, modifyControl_lookup, if_neg h1] at this
    exact this

/-- Forward evaluation of a successful `RetrievePackageInternal`. -/
theorem retrieveInternal_eval (inv : Inventory) (idx : Nat) (lk : Locker) (pkg0 : Package)
    (invD : Inventory)
    (hlk : inv.lockers[idx]? = some lk) (hcont : lk.contents = some pkg0)
    (hde : Inventory.DeallocateLocker
      { inv with lockers := inv.lockers.set idx { lk with contents := none } } idx =
      some invD) :
    inv.RetrievePackageInternal idx true = some (.ok { pkg0 with storedIn := false },
      { invD with lockersByPackageId := eraseA invD.lockersByPackageId pkg0.id }) := by
  show (inv.lockers[idx]? >>= fun lk =>
      match lk.Fetch with
      | .error e => some ((.error e : Except String Package), inv)
      | .ok (lk', pkg) =>
        (Inventory.DeallocateLocker
          { inv with lockers := inv.lockers.set idx lk' } idx) >>= fun invD =>
          some (.ok pkg, { invD with
            lockersByPackageId := eraseA invD.lockersByPackageId pkg.id })) = _
  rw [hlk, optSome_bind]
  rw [show lk.Fetch = .ok ({ lk with contents := none }, { pkg0 with storedIn := false }) from
    by unfold Locker.Fetch; rw [hcont]]
  dsimp only
  rw [hde, optSome_bind]

/-- C3: if `DepositPackage` succeeds, returning locker identifier `lid`,
then — assuming free lists point at lockers of the matching class (spec
invariant 2) and `LockersById` correctly indexes the locker array (spec
invariant 3) — immediately retrieving by the package's own identifier, or
by `lid`, succeeds, returns exactly the deposited package, and restores the
inventory to its exact pre-deposit state, so the deposited-into locker is
empty again and every class's virtual capacity equals its pre-deposit
value. -/
theorem deposit_retrieve_roundtrip (inv : Inventory) (pkg : Package) (lid : String)
    (inv' : Inventory)
    (hknd : (inv.control.map Prod.fst).Nodup)
    (hWF : ∀ sid c, lookupA inv.control sid = some c →
      ∀ i ∈ c.lockers, ∃ lkw, inv.lockers[i]? = some lkw ∧ lkw.sizeId = sid)
    (hById : ∀ i lkw, inv.lockers[i]? = some lkw → lookupA inv.lockersById lkw.id = some i)
    (hdep : inv.DepositPackage pkg = some (.ok lid, inv')) :
    inv'.RetrievePackageById pkg.id = some (.ok pkg, inv) ∧
    inv'.RetrievePackageByLockerId lid = some (.ok pkg, inv) ∧
    (∃ idx lkw, lookupA inv'.lockersByPackageId pkg.id = some idx ∧
      inv.lockers[idx]? = some lkw ∧ lkw.contents = none ∧ lkw.id = lid) := by
  unfold Inventory.DepositPackage at hdep
  cases hdup : lookupA inv.lockersByPackageId pkg.id with
  | some x =>
    rw [hdup] at hdep
    simp only [Option.some.injEq, Prod.mk.injEq] at hdep
    exact Except.noConfusion hdep.1
  | none =>
    rw [hdup] at hdep
    rw [optBind_eq_some] at hdep
    obtain ⟨⟨r, inv2⟩, hgms, hdep⟩ := hdep
    have hinv2 : inv = inv2 := (getMostSuitable_pure _ _ _ _ hgms).symm
    subst hinv2
    cases r with
    | error e =>
      simp only [Option.some.injEq, Prod.mk.injEq] at hdep
      exact Except.noConfusion hdep.1
    | ok chosen =>
      dsimp only at hdep
      rw [optBind_eq_some] at hdep
      obtain ⟨ctrl, hctrl, hdep⟩ := hdep
      rw [optBind_eq_some] at hdep
      obtain ⟨idx, hidx, hdep⟩ := hdep
      rw [optBind_eq_some] at hdep
      obtain ⟨lk, hlk, hdep⟩ := hdep
      cases hcont : lk.contents with
      | some q =>
        rw [show lk.Put pkg = .error "Locker is not empty" from by
          unfold Locker.Put; simp [hcont]] at hdep
        simp only [Option.some.injEq, Prod.mk.injEq] at hdep
        exact Except.noConfusion hdep.1
      | none =>
        cases hstored : pkg.storedIn with
        | true =>
          rw [show lk.Put pkg = .error "Package already in locker" from by
            unfold Locker.Put; simp [hcont, hstored]] at hdep
          simp only [Option.some.injEq, Prod.mk.injEq] at hdep
          exact Except.noConfusion hdep.1
        | false =>
          rw [show lk.Put pkg = .ok
            ({ lk with contents := some { pkg with storedIn := true } },
             { pkg with storedIn := true }) from by
            unfold Locker.Put; simp [hcont, hstored]] at hdep
          dsimp only at hdep
          rw [optBind_eq_some] at hdep
          obtain ⟨⟨a, inv4⟩, halloc, hdep⟩ := hdep
          dsimp only at hdep
          rw [optBind_eq_some] at hdep
          obtain ⟨lk2, hlk2, hdep⟩ := hdep
          simp only [Option.some.injEq, Prod.mk.injEq] at hdep
          obtain ⟨hlid, hinv5⟩ := hdep
          have hlid2 : lk2.id = lid := Except.ok.inj hlid
          subst hinv5
          -- basic facts about the allocation
          have hne : ctrl.lockers ≠ [] := by
            intro he
            rw [he] at hidx
            cases hidx
          have hidxeq : idx = ctrl.lockers.getLast hne := by
            rw [List.getLast?_eq_getLast_of_ne_nil hne] at hidx
            exact (Option.some.inj hidx).symm
          have hlksz : lk.sizeId = chosen := by
            obtain ⟨lkw, hlkw, hsz⟩ := hWF chosen ctrl hctrl idx
              (by rw [hidxeq]; exact List.getLast_mem hne)
            rw [hlk] at hlkw
            obtain rfl := Option.some.inj hlkw
            exact hsz
          have hidxlt : idx < inv.lockers.length := getElem?_some_lt hlk
          have hall : ∀ i ∈ ctrl.biggerThan, (lookupA inv.control i).isSome :=
            allocate_present ({ inv with lockers := inv.lockers.set idx ({ lk with contents := some { pkg with storedIn := true } } : Locker) } : Inventory) chosen a inv4 ctrl hctrl halloc
          obtain ⟨inv4', hrun', hctl4, hl4, hs4, hb4, hp4⟩ := allocate_spec
            ({ inv with lockers := inv.lockers.set idx ({ lk with contents := some { pkg with storedIn := true } } : Locker) } : Inventory)
            chosen ctrl hctrl hne hall
          rw [halloc] at hrun'
          simp only [Option.some.injEq, Prod.mk.injEq] at hrun'
          obtain ⟨ha2, hi4⟩ := hrun'
          rw [← hi4] at hctl4 hl4 hs4 hb4 hp4
          -- identify the deposited locker
          have hl4' : inv4.lockers = inv.lockers.set idx
              ({ lk with contents := some { pkg with storedIn := true } } : Locker) := hl4
          have hlk2c : lk2 = { lk with contents := some { pkg with storedIn := true } } := by
            have h1 : inv4.lockers[idx]? = some lk2 := hlk2
            rw [hl4', List.getElem?_set_self hidxlt] at h1
            exact (Option.some.inj h1).symm
          have hlidlk : lk.id = lid := by
            rw [← hlid2, hlk2c]
          -- structural simplifications
          have hlkid : ({ lk with contents := none } : Locker) = lk := by
            cases lk with
            | mk a b c =>
              simp only at hcont
              rw [hcont]
          have hpkgid : ({ pkg with storedIn := false } : Package) = pkg := by
            cases pkg with
            | mk a b c =>
              simp only at hstored
              rw [hstored]
          set inv5 : Inventory := { inv4 with
            lockersByPackageId := insertA inv4.lockersByPackageId pkg.id idx } with hinv5def
          have hinv5lockers : inv5.lockers = inv.lockers.set idx
              ({ lk with contents := some { pkg with storedIn := true } } : Locker) := hl4'
          have hsetlk : inv5.lockers.set idx ({ lk with contents := none } : Locker) =
              inv.lockers := by
            rw [hinv5lockers, List.set_set, hlkid, set_getElem_self hlk]
          have hlkP : inv5.lockers[idx]? =
              some ({ lk with contents := some { pkg with storedIn := true } } : Locker) := by
            rw [hinv5lockers]
            exact List.getElem?_set_self hidxlt
          -- the deallocation restores the control table
          obtain ⟨invD, hrunD, hctlD, hlD, hsD, hbD, hpD⟩ := deallocate_after_allocate inv
            { inv5 with lockers := inv5.lockers.set idx ({ lk with contents := none } : Locker) }
            chosen ctrl idx hknd hctrl hne hidxeq hall (hctl4) lk
            (by
              show (inv5.lockers.set idx ({ lk with contents := none } : Locker))[idx]? = some lk
              rw [hsetlk]
              exact hlk)
            hlksz
          -- the final inventory of a retrieval is exactly the original one
          have hfinal : ({ invD with
              lockersByPackageId := eraseA invD.lockersByPackageId pkg.id } : Inventory) = inv := by
            apply inventory_ext
            · show invD.lockers = inv.lockers
              rw [hlD]
              exact hsetlk
            · exact hctlD
            · show invD.sizes = inv.sizes
              rw [hsD]
              exact hs4
            · show invD.lockersById = inv.lockersById
              rw [hbD]
              exact hb4
            · show eraseA invD.lockersByPackageId pkg.id = inv.lockersByPackageId
              rw [hpD]
              show eraseA (insertA inv4.lockersByPackageId pkg.id idx) pkg.id = _
              rw [show inv4.lockersByPackageId = inv.lockersByPackageId from hp4]
              exact eraseA_insertA _ _ _ hdup
          have hinternal : inv5.RetrievePackageInternal idx true = some (.ok pkg, inv) := by
            have he := retrieveInternal_eval inv5 idx
              ({ lk with contents := some { pkg with storedIn := true } } : Locker)
              ({ pkg with storedIn := true } : Package) invD hlkP rfl hrunD
            rw [he]
            rw [show ({ ({ pkg with storedIn := true } : Package) with storedIn := false } : Package) = pkg from hpkgid]
            rw [show ({ invD with lockersByPackageId := eraseA invD.lockersByPackageId (({ pkg with storedIn := true } : Package)).id } : Inventory) = inv from hfinal]
          refine ⟨?_, ?_, ?_⟩
          · show inv5.RetrievePackageById pkg.id = some (.ok pkg, inv)
            unfold Inventory.RetrievePackageById
            rw [show lookupA inv5.lockersByPackageId pkg.id = some idx from
              lookupA_insertA_self _ _ _]
            exact hinternal
          · show inv5.RetrievePackageByLockerId lid = some (.ok pkg, inv)
            unfold Inventory.RetrievePackageByLockerId
            rw [show lookupA inv5.lockersById lid = some idx from by
              rw [show inv5.lockersById = inv.lockersById from hb4, ← hlidlk]
              exact hById idx lk hlk]
            exact hinternal
          · exact ⟨idx, lk, lookupA_insertA_self _ _ _, hlk, hcont, hlidlk⟩

theorem deposit_retrieve_roundtrip_witness :
    invC.RetrievePackageById "p1" = some (.ok ⟨"p1", ⟨1, 1, 1⟩, false⟩, invB) ∧
    invC.RetrievePackageByLockerId "1" = some (.ok ⟨"p1", ⟨1, 1, 1⟩, false⟩, invB) := by
  have h := deposit_retrieve_roundtrip invB ⟨"p1", ⟨1, 1, 1⟩, false⟩ "1" invC
    (by decide)
    (by
      intro sid c hc
      by_cases h1 : (1 : Int) = sid
      · subst h1
        have hc2 : some (⟨1, ⟨1, 1, 1⟩, [], [2, 3], [0], 2⟩ : LockerControlSpec) = some c := hc
        injection hc2 with hc3
        subst hc3
        intro i hi
        have hi2 : i = 0 := by simpa using hi
        subst hi2
        exact ⟨⟨"1", 1, none⟩, rfl, rfl⟩
      · by_cases h2 : (2 : Int) = sid
        · subst h2
          have hc2 : some (⟨2, ⟨2, 2, 2⟩, [1], [3], [1], 1⟩ : LockerControlSpec) = some c := hc
          injection hc2 with hc3
          subst hc3
          intro i hi
          have hi2 : i = 1 := by simpa using hi
          subst hi2
          exact ⟨⟨"2", 2, none⟩, rfl, rfl⟩
        · by_cases h3 : (3 : Int) = sid
          · subst h3
            have hc2 : some (⟨3, ⟨3, 3, 3⟩, [1, 2], [], [], 0⟩ : LockerControlSpec) = some c := hc
            injection hc2 with hc3
            subst hc3
            intro i hi
            simp at hi
          · have hc2 : (if (1 : Int) = sid then some (⟨1, ⟨1, 1, 1⟩, [], [2, 3], [0], 2⟩ : LockerControlSpec) else if (2 : Int) = sid then some ⟨2, ⟨2, 2, 2⟩, [1], [3], [1], 1⟩ else if (3 : Int) = sid then some ⟨3, ⟨3, 3, 3⟩, [1, 2], [], [], 0⟩ else none) = some c := hc
            rw [if_neg h1, if_neg h2, if_neg h3] at hc2
            cases hc2)
    (by
      intro i lkw hl
      match i with
      | 0 =>
        have h2 : some (⟨"1", 1, none⟩ : Locker) = some lkw := hl
        injection h2 with h3
        subst h3
        rfl
      | 1 =>
        have h2 : some (⟨"2", 2, none⟩ : Locker) = some lkw := hl
        injection h2 with h3
        subst h3
        rfl
      | (n + 2) =>
        have h2 : (none : Option Locker) = some lkw := hl
        cases h2)
    rfl
  exact ⟨h.1, h.2.1⟩

/-! ## Claim C1 — seeding of virtual capacities by `NewInventory` -/

theorem contains_antisymm {a b : SizeSpec} (h1 : a.Contains b = true)
    (h2 : b.Contains a = true) : a = b := by
  cases a with
  | mk al aw ah =>
    cases b with
    | mk bl bw bh =>
      unfold SizeSpec.Contains at h1 h2
      simp only [Bool.and_eq_true, decide_eq_true_eq] at h1 h2
      simp only [SizeSpec.mk.injEq]
      refine ⟨by omega, by omega, by omega⟩

theorem forall2_trans_gen {α β γ : Type} {P : α → β → Prop} {Q : β → γ → Prop}
    {R : α → γ → Prop} (hPQ : ∀ a b c, P a b → Q b c → R a c) :
    ∀ {xs : List α} {ys : List β} {zs : List γ},
      List.Forall₂ P xs ys → List.Forall₂ Q ys zs → List.Forall₂ R xs zs := by
  intro xs ys zs h1 h2
  induction h1 generalizing zs with
  | nil =>
    cases h2
    exact List.Forall₂.nil
  | cons hab htail ih =>
    cases h2 with
    | cons hbc htail2 => exact List.Forall₂.cons (hPQ _ _ _ hab hbc) (ih htail2)

theorem forall2_append_gen {α β : Type} {P : α → β → Prop} :
    ∀ {xs ys : List α} {zs ws : List β}, List.Forall₂ P xs zs → List.Forall₂ P ys ws →
      List.Forall₂ P (xs ++ ys) (zs ++ ws) := by
  intro xs ys zs ws h1 h2
  induction h1 with
  | nil => simpa using h2
  | cons hab htail ih => exact List.Forall₂.cons hab ih

theorem forall2_map_self_gen {α : Type} {P : α → α → Prop} {f : α → α} :
    ∀ {l : List α}, (∀ x ∈ l, P x (f x)) → List.Forall₂ P l (l.map f) := by
  intro l h
  induction l with
  | nil => exact List.Forall₂.nil
  | cons x t ih =>
    exact List.Forall₂.cons (h x (List.mem_cons_self x t))
      (ih fun y hy => h y (List.mem_cons_of_mem x hy))

theorem forall2_mem_left_gen {α β : Type} {P : α → β → Prop} :
    ∀ {xs : List α} {ys : List β}, List.Forall₂ P xs ys → ∀ x ∈ xs, ∃ y ∈ ys, P x y := by
  intro xs ys h
  induction h with
  | nil =>
    intro x hx
    simp at hx
  | cons hab htail ih =>
    intro x hx
    rcases List.mem_cons.mp hx with rfl | hx2
    · exact ⟨_, List.mem_cons_self _ _, hab⟩
    · obtain ⟨y, hy, hP⟩ := ih x hx2
      exact ⟨y, List.mem_cons_of_mem _ hy, hP⟩

theorem forall2_mem_right_gen {α β : Type} {P : α → β → Prop} :
    ∀ {xs : List α} {ys : List β}, List.Forall₂ P xs ys → ∀ y ∈ ys, ∃ x ∈ xs, P x y := by
  intro xs ys h
  induction h with
  | nil =>
    intro y hy
    simp at hy
  | cons hab htail ih =>
    intro y hy
    rcases List.mem_cons.mp hy with rfl | hy2
    · exact ⟨_, List.mem_cons_self _ _, hab⟩
    · obtain ⟨x, hx, hP⟩ := ih y hy2
      exact ⟨x, List.mem_cons_of_mem _ hx, hP⟩

theorem forall2_map_eq {α β γ : Type} {P : α → β → Prop} {f : α → γ} {g : β → γ}
    (hfg : ∀ x y, P x y → g y = f x) :
    ∀ {xs : List α} {ys : List β}, List.Forall₂ P xs ys → ys.map g = xs.map f := by
  intro xs ys h
  induction h with
  | nil => rfl
  | cons hab htail ih => simp only [List.map_cons, ih, hfg _ _ hab]

/-- A control entry that changed only in its free list. -/
def SameButLockers (p q : LockerSize × LockerControlSpec) : Prop :=
  q.1 = p.1 ∧ q.2.size = p.2.size ∧ q.2.sizeId = p.2.sizeId ∧
  q.2.biggerThan = p.2.biggerThan ∧ q.2.smallerThan = p.2.smallerThan ∧
  q.2.virtualCapacity = p.2.virtualCapacity

theorem sameButLockers_refl (p : LockerSize × LockerControlSpec) : SameButLockers p p :=
  ⟨rfl, rfl, rfl, rfl, rfl, rfl⟩

theorem sameButLockers_trans {p q r : LockerSize × LockerControlSpec}
    (h1 : SameButLockers p q) (h2 : SameButLockers q r) : SameButLockers p r :=
  ⟨h2.1.trans h1.1, h2.2.1.trans h1.2.1, h2.2.2.1.trans h1.2.2.1,
    h2.2.2.2.1.trans h1.2.2.2.1, h2.2.2.2.2.1.trans h1.2.2.2.2.1,
    h2.2.2.2.2.2.trans h1.2.2.2.2.2⟩

theorem modifyControl_sameButLockers (inv : Inventory) (sid : LockerSize)
    (g : LockerControlSpec → List Nat) :
    List.Forall₂ SameButLockers inv.control
      (inv.modifyControl sid fun c => { c with lockers := g c }).control := by
  show List.Forall₂ SameButLockers inv.control (inv.control.map _)
  apply forall2_map_self_gen
  intro p hp
  by_cases h : p.1 = sid
  · simp only [if_pos h]
    exact ⟨rfl, rfl, rfl, rfl, rfl, rfl⟩
  · simp only [if_neg h]
    exact sameButLockers_refl p

theorem addLockersLoop_frames (g : Nat → String) (sid : LockerSize) :
    ∀ (count : Nat) (inv : Inventory),
      (addLockersLoop g sid count inv).sizes = inv.sizes ∧
      (addLockersLoop g sid count inv).lockersByPackageId = inv.lockersByPackageId ∧
      List.Forall₂ SameButLockers inv.control (addLockersLoop g sid count inv).control := by
  intro count
  induction count with
  | zero =>
    intro inv
    exact ⟨rfl, rfl, List.forall₂_same.mpr fun p _ => sameButLockers_refl p⟩
  | succ n ih =>
    intro inv
    have hstep := ih ((({ inv with lockers := inv.lockers ++ [({ id := g inv.lockers.length, sizeId := sid, contents := none } : Locker)], lockersById := insertA inv.lockersById (g inv.lockers.length) inv.lockers.length } : Inventory)).modifyControl sid fun c => { c with lockers := c.lockers ++ [inv.lockers.length] })
    refine ⟨?_, ?_, ?_⟩
    · show (addLockersLoop g sid n _).sizes = inv.sizes
      rw [hstep.1]
      rfl
    · show (addLockersLoop g sid n _).lockersByPackageId = inv.lockersByPackageId
      rw [hstep.2.1]
      rfl
    · show List.Forall₂ SameButLockers inv.control (addLockersLoop g sid n _).control
      refine forall2_trans_gen
        (fun (a b c : LockerSize × LockerControlSpec) (u : SameButLockers a b)
          (v : SameButLockers b c) => sameButLockers_trans u v) ?_ hstep.2.2
      exact modifyControl_sameButLockers ({ inv with lockers := inv.lockers ++ [({ id := g inv.lockers.length, sizeId := sid, contents := none } : Locker)], lockersById := insertA inv.lockersById (g inv.lockers.length) inv.lockers.length } : Inventory) sid (fun c => c.lockers ++ [inv.lockers.length])

/-- The pointwise relation between a `Sizes` entry and its `Control` entry
as established by phase 1 of `NewInventory`. -/
def SizeCtrlPaired (q : SizeSpec × LockerSize) (p : LockerSize × LockerControlSpec) : Prop :=
  p.1 = q.2 ∧ p.2.size = q.1 ∧ p.2.sizeId = q.2 ∧ p.2.biggerThan = [] ∧
  p.2.smallerThan = [] ∧ p.2.virtualCapacity = 0

theorem paired_after_sbl {q : SizeSpec × LockerSize} {p p2 : LockerSize × LockerControlSpec}
    (h1 : SizeCtrlPaired q p) (h2 : SameButLockers p p2) : SizeCtrlPaired q p2 :=
  ⟨h2.1.trans h1.1, h2.2.1.trans h1.2.1, h2.2.2.1.trans h1.2.2.1,
    h2.2.2.2.1.trans h1.2.2.2.1, h2.2.2.2.2.1.trans h1.2.2.2.2.1,
    h2.2.2.2.2.2.trans h1.2.2.2.2.2⟩

/-- The state invariant maintained by phase 1 of `NewInventory`: distinct
normalized sizes, class identifiers `1..n` in discovery order, and control
blocks paired positionally with the size map, all still unrelated and with
virtual capacity zero. -/
def Phase1Inv (inv : Inventory) : Prop :=
  (inv.sizes.map Prod.fst).Nodup ∧
  inv.sizes.map Prod.snd = (List.range inv.sizes.length).map (fun k => (Int.ofNat k) + 1) ∧
  List.Forall₂ SizeCtrlPaired inv.sizes inv.control

theorem phase1Inv_addLockers (g : Nat → String) (sid : LockerSize) (count : Nat)
    (inv : Inventory) (h : Phase1Inv inv) : Phase1Inv (addLockersLoop g sid count inv) := by
  obtain ⟨h1, h2, h3⟩ := addLockersLoop_frames g sid count inv
  obtain ⟨hnd, hids, hpair⟩ := h
  refine ⟨by rw [h1]; exact hnd, by rw [h1]; exact hids, ?_⟩
  rw [h1]
  exact forall2_trans_gen
    (fun (a : SizeSpec × LockerSize) (b c : LockerSize × LockerControlSpec)
      (u : SizeCtrlPaired a b) (v : SameButLockers b c) => paired_after_sbl u v) hpair h3

theorem phase1_inv (g : Nat → String) :
    ∀ (l : List (SizeSpec × Nat)) (inv : Inventory), Phase1Inv inv → Phase1Inv (phase1 g l inv) := by
  intro l
  induction l with
  | nil =>
    intro inv h
    exact h
  | cons p rest ih =>
    obtain ⟨size0, count⟩ := p
    intro inv h
    obtain ⟨hnd, hids, hpair⟩ := h
    unfold phase1
    dsimp only
    cases hlk : lookupA inv.sizes size0.Normalize with
    | some size_id =>
      dsimp only
      apply ih
      exact phase1Inv_addLockers g size_id count inv ⟨hnd, hids, hpair⟩
    | none =>
      dsimp only
      apply ih
      apply phase1Inv_addLockers
      have hkeys : inv.control.map Prod.fst = inv.sizes.map Prod.snd :=
        forall2_map_eq (fun q p hp => hp.1) hpair
      have hfresh : lookupA inv.control (Int.ofNat inv.sizes.length + 1) = none := by
        rw [lookupA_eq_none_iff]
        intro q hq
        have hq1 : q.1 ∈ inv.control.map Prod.fst := List.mem_map_of_mem Prod.fst hq
        rw [hkeys, hids] at hq1
        simp only [List.mem_map, List.mem_range] at hq1
        obtain ⟨k, hk, hkq⟩ := hq1
        intro he
        rw [← hkq] at he
        have he2 : Int.ofNat k = Int.ofNat inv.sizes.length := add_right_cancel he
        have he3 : k = inv.sizes.length := Int.ofNat.inj he2
        omega
      have hszfresh : insertA inv.sizes size0.Normalize (Int.ofNat inv.sizes.length + 1) =
          inv.sizes ++ [(size0.Normalize, Int.ofNat inv.sizes.length + 1)] :=
        insertA_append _ hlk
      have hctlfresh : insertA inv.control (Int.ofNat inv.sizes.length + 1)
          ({ sizeId := Int.ofNat inv.sizes.length + 1, size := size0.Normalize, biggerThan := [], smallerThan := [], lockers := [], virtualCapacity := 0 } : LockerControlSpec) =
          inv.control ++ [(Int.ofNat inv.sizes.length + 1, ({ sizeId := Int.ofNat inv.sizes.length + 1, size := size0.Normalize, biggerThan := [], smallerThan := [], lockers := [], virtualCapacity := 0 } : LockerControlSpec))] :=
        insertA_append _ hfresh
      refine ⟨?_, ?_, ?_⟩
      · show (List.map Prod.fst (insertA inv.sizes size0.Normalize (Int.ofNat inv.sizes.length + 1))).Nodup
        rw [hszfresh, List.map_append, List.nodup_append]
        refine ⟨hnd, by simp, ?_⟩
        intro a ha hb
        simp only [List.map_cons, List.map_nil, List.mem_singleton] at hb
        subst hb
        have hnone := (lookupA_eq_none_iff inv.sizes size0.Normalize).mp hlk
        simp only [List.mem_map] at ha
        obtain ⟨q, hq, hqa⟩ := ha
        exact hnone q hq hqa
      · show List.map Prod.snd (insertA inv.sizes size0.Normalize (Int.ofNat inv.sizes.length + 1)) =
          List.map _ (List.range (insertA inv.sizes size0.Normalize (Int.ofNat inv.sizes.length + 1)).length)
        rw [hszfresh, List.map_append, hids, List.length_append, List.length_singleton,
          List.range_succ, List.map_append]
        rfl
      · show List.Forall₂ SizeCtrlPaired (insertA inv.sizes size0.Normalize (Int.ofNat inv.sizes.length + 1))
          (insertA inv.control (Int.ofNat inv.sizes.length + 1) ({ sizeId := Int.ofNat inv.sizes.length + 1, size := size0.Normalize, biggerThan := [], smallerThan := [], lockers := [], virtualCapacity := 0 } : LockerControlSpec))
        rw [hszfresh, hctlfresh]
        refine forall2_append_gen hpair ?_
        exact List.Forall₂.cons ⟨rfl, rfl, rfl, rfl, rfl, rfl⟩ List.Forall₂.nil

theorem modifyControl_profile (inv : Inventory) (sid : LockerSize)
    (f : LockerControlSpec → LockerControlSpec)
    (hf : ∀ c, (f c).size = c.size ∧ (f c).lockers = c.lockers) :
    (inv.modifyControl sid f).control.map (fun q => (q.1, q.2.size, q.2.lockers)) =
      inv.control.map (fun q => (q.1, q.2.size, q.2.lockers)) := by
  show (inv.control.map _).map _ = _
  rw [List.map_map]
  apply List.map_congr_left
  intro p hp
  by_cases h : p.1 = sid
  · simp only [Function.comp_apply, if_pos h, (hf p.2).1, (hf p.2).2]
  · simp only [Function.comp_apply, if_neg h]

theorem relatePair_pos (inv : Inventory) (s1 s2 : SizeSpec)
    (hc : s1.Contains s2 = true)
    (h1 : (lookupA inv.control (idOf inv s1)).isSome)
    (h2 : (lookupA inv.control (idOf inv s2)).isSome) :
    relatePair inv s1 s2 = some ((inv.modifyControl (idOf inv s1) fun c => { c with biggerThan := c.biggerThan ++ [idOf inv s2] }).modifyControl (idOf inv s2) fun c => { c with smallerThan := c.smallerThan ++ [idOf inv s1] }) := by
  have h2b : (lookupA (inv.modifyControl (idOf inv s1) fun c => { c with biggerThan := c.biggerThan ++ [idOf inv s2] }).control (idOf inv s2)).isSome := by
    rw [modifyControl_lookup]
    split
    · obtain ⟨v, hv⟩ := Option.isSome_iff_exists.mp h2
      rw [hv]
      rfl
    · exact h2
  obtain ⟨b1, hb1⟩ := Option.isSome_iff_exists.mp h1
  obtain ⟨b2, hb2⟩ := Option.isSome_iff_exists.mp h2b
  unfold relatePair
  rw [if_pos hc, hb1, hb2]

theorem relatePair_pos2 (inv : Inventory) (s1 s2 : SizeSpec)
    (hc : s1.Contains s2 = false) (hc2 : s2.Contains s1 = true)
    (h1 : (lookupA inv.control (idOf inv s1)).isSome)
    (h2 : (lookupA inv.control (idOf inv s2)).isSome) :
    relatePair inv s1 s2 = some ((inv.modifyControl (idOf inv s1) fun c => { c with smallerThan := c.smallerThan ++ [idOf inv s2] }).modifyControl (idOf inv s2) fun c => { c with biggerThan := c.biggerThan ++ [idOf inv s1] }) := by
  have h2b : (lookupA (inv.modifyControl (idOf inv s1) fun c => { c with smallerThan := c.smallerThan ++ [idOf inv s2] }).control (idOf inv s2)).isSome := by
    rw [modifyControl_lookup]
    split
    · obtain ⟨v, hv⟩ := Option.isSome_iff_exists.mp h2
      rw [hv]
      rfl
    · exact h2
  obtain ⟨b1, hb1⟩ := Option.isSome_iff_exists.mp h1
  obtain ⟨b2, hb2⟩ := Option.isSome_iff_exists.mp h2b
  unfold relatePair
  rw [if_neg (by rw [hc]; exact Bool.false_ne_true), if_pos hc2]
  rw [hb1, hb2]

theorem relatePair_neg (inv : Inventory) (s1 s2 : SizeSpec)
    (hc : s1.Contains s2 = false) (hc2 : s2.Contains s1 = false) :
    relatePair inv s1 s2 = some inv := by
  unfold relatePair
  rw [if_neg (by rw [hc]; exact Bool.false_ne_true),
    if_neg (by rw [hc2]; exact Bool.false_ne_true)]

theorem modifyControl_profile_bt (inv : Inventory) (sid : LockerSize)
    (g : LockerControlSpec → List LockerSize) :
    (inv.modifyControl sid fun c => { c with biggerThan := g c }).control.map
      (fun q => (q.1, q.2.size, q.2.lockers)) =
      inv.control.map (fun q => (q.1, q.2.size, q.2.lockers)) :=
  modifyControl_profile inv sid _ (fun c => ⟨rfl, rfl⟩)

theorem modifyControl_profile_st (inv : Inventory) (sid : LockerSize)
    (g : LockerControlSpec → List LockerSize) :
    (inv.modifyControl sid fun c => { c with smallerThan := g c }).control.map
      (fun q => (q.1, q.2.size, q.2.lockers)) =
      inv.control.map (fun q => (q.1, q.2.size, q.2.lockers)) :=
  modifyControl_profile inv sid _ (fun c => ⟨rfl, rfl⟩)

theorem relateHead (x : SizeSpec) :
    ∀ (rest : List SizeSpec) (inv : Inventory),
      (x :: rest).Nodup →
      (∀ s ∈ x :: rest, (lookupA inv.control (idOf inv s)).isSome) →
      (∀ s ∈ x :: rest, ∀ t ∈ x :: rest, idOf inv s = idOf inv t → s = t) →
      ∃ inv2, relateList inv (rest.map fun y => (x, y)) = some inv2 ∧
        inv2.sizes = inv.sizes ∧ inv2.lockers = inv.lockers ∧
        inv2.lockersById = inv.lockersById ∧ inv2.lockersByPackageId = inv.lockersByPackageId ∧
        inv2.control.map (fun q => (q.1, q.2.size, q.2.lockers)) =
          inv.control.map (fun q => (q.1, q.2.size, q.2.lockers)) ∧
        (∀ k, k ≠ idOf inv x → k ∉ rest.map (idOf inv) →
          lookupA inv2.control k = lookupA inv.control k) ∧
        (∀ b, lookupA inv.control (idOf inv x) = some b →
          ∃ bt, lookupA inv2.control (idOf inv x) = some { b with biggerThan := bt, smallerThan := b.smallerThan ++ ((rest.filter fun t => t.Contains x).map (idOf inv)) }) ∧
        (∀ y ∈ rest, ∀ b, lookupA inv.control (idOf inv y) = some b →
          ∃ bt, lookupA inv2.control (idOf inv y) = some { b with biggerThan := bt, smallerThan := b.smallerThan ++ (if x.Contains y = true then [idOf inv x] else []) }) := by
  intro rest
  induction rest with
  | nil =>
    intro inv hnd h2 h3
    refine ⟨inv, rfl, rfl, rfl, rfl, rfl, rfl, fun k _ _ => rfl, ?_, ?_⟩
    · intro b hb
      refine ⟨b.biggerThan, ?_⟩
      simpa using hb
    · intro y hy
      exact absurd hy (by simp)
  | cons y rest2 ih =>
    intro inv hnd h2 h3
    have hx_nmem : x ∉ y :: rest2 := (List.nodup_cons.mp hnd).1
    have hrest_nd : (y :: rest2).Nodup := (List.nodup_cons.mp hnd).2
    have hxy_ne : x ≠ y := fun e => hx_nmem (e ▸ List.mem_cons_self y rest2)
    have hx_nmem2 : x ∉ rest2 := fun hm => hx_nmem (List.mem_cons_of_mem y hm)
    have hy_nmem2 : y ∉ rest2 := (List.nodup_cons.mp hrest_nd).1
    have hnd2 : (x :: rest2).Nodup :=
      List.nodup_cons.mpr ⟨hx_nmem2, (List.nodup_cons.mp hrest_nd).2⟩
    have hxmem : x ∈ x :: y :: rest2 := List.mem_cons_self _ _
    have hymem : y ∈ x :: y :: rest2 := List.mem_cons_of_mem x (List.mem_cons_self _ _)
    have hne_ids : idOf inv x ≠ idOf inv y := fun e => hxy_ne (h3 x hxmem y hymem e)
    have hsx : (lookupA inv.control (idOf inv x)).isSome := h2 x hxmem
    have hsy : (lookupA inv.control (idOf inv y)).isSome := h2 y hymem
    obtain ⟨bx, hbx⟩ := Option.isSome_iff_exists.mp hsx
    obtain ⟨by2, hby⟩ := Option.isSome_iff_exists.mp hsy
    cases hxy : x.Contains y with
    | true =>
      have hyx : y.Contains x = false := by
        cases hyx0 : y.Contains x with
        | true => exact absurd (contains_antisymm hxy hyx0) hxy_ne
        | false => rfl
      have heval := relatePair_pos inv x y hxy hsx hsy
      have hlA : ∀ k, lookupA ((inv.modifyControl (idOf inv x) fun c => { c with biggerThan := c.biggerThan ++ [idOf inv y] }).modifyControl (idOf inv y) fun c => { c with smallerThan := c.smallerThan ++ [idOf inv x] }).control k =
          if k = idOf inv y then
            (if k = idOf inv x then (lookupA inv.control k).map (fun c => { c with biggerThan := c.biggerThan ++ [idOf inv y] }) else lookupA inv.control k).map (fun c => { c with smallerThan := c.smallerThan ++ [idOf inv x] })
          else
            (if k = idOf inv x then (lookupA inv.control k).map (fun c => { c with biggerThan := c.biggerThan ++ [idOf inv y] }) else lookupA inv.control k) := by
        intro k
        rw [modifyControl_lookup, modifyControl_lookup]
      have hlAx : lookupA ((inv.modifyControl (idOf inv x) fun c => { c with biggerThan := c.biggerThan ++ [idOf inv y] }).modifyControl (idOf inv y) fun c => { c with smallerThan := c.smallerThan ++ [idOf inv x] }).control (idOf inv x) =
          some { bx with biggerThan := bx.biggerThan ++ [idOf inv y] } := by
        rw [hlA, if_neg hne_ids, if_pos rfl, hbx]
        rfl
      have hlAy : lookupA ((inv.modifyControl (idOf inv x) fun c => { c with biggerThan := c.biggerThan ++ [idOf inv y] }).modifyControl (idOf inv y) fun c => { c with smallerThan := c.smallerThan ++ [idOf inv x] }).control (idOf inv y) =
          some { by2 with smallerThan := by2.smallerThan ++ [idOf inv x] } := by
        rw [hlA, if_pos rfl, if_neg (fun e => hne_ids e.symm), hby]
        rfl
      have hlAo : ∀ k, k ≠ idOf inv x → k ≠ idOf inv y → lookupA ((inv.modifyControl (idOf inv x) fun c => { c with biggerThan := c.biggerThan ++ [idOf inv y] }).modifyControl (idOf inv y) fun c => { c with smallerThan := c.smallerThan ++ [idOf inv x] }).control k = lookupA inv.control k := by
        intro k k1 k2
        rw [hlA, if_neg k2, if_neg k1]
      obtain ⟨inv2, hrun, hssz, hslk, hsbi, hsbp, hprof, huntouched, hxc, hyc⟩ :=
        ih ((inv.modifyControl (idOf inv x) fun c => { c with biggerThan := c.biggerThan ++ [idOf inv y] }).modifyControl (idOf inv y) fun c => { c with smallerThan := c.smallerThan ++ [idOf inv x] })
          hnd2
          (by
            intro s hs
            show (lookupA _ (idOf inv s)).isSome
            by_cases e1 : idOf inv s = idOf inv x
            · rw [e1, hlAx]
              rfl
            · by_cases e2 : idOf inv s = idOf inv y
              · rw [e2, hlAy]
                rfl
              · rw [hlAo _ e1 e2]
                rcases List.mem_cons.mp hs with rfl | hs2
                · exact hsx
                · exact h2 s (List.mem_cons_of_mem x (List.mem_cons_of_mem y hs2)))
          (by
            intro s hs t ht he
            have hs' : s ∈ x :: y :: rest2 := by
              rcases List.mem_cons.mp hs with rfl | hs2
              · exact hxmem
              · exact List.mem_cons_of_mem x (List.mem_cons_of_mem y hs2)
            have ht' : t ∈ x :: y :: rest2 := by
              rcases List.mem_cons.mp ht with rfl | ht2
              · exact hxmem
              · exact List.mem_cons_of_mem x (List.mem_cons_of_mem y ht2)
            exact h3 s hs' t ht' he)
      have hid : idOf ((inv.modifyControl (idOf inv x) fun c => { c with biggerThan := c.biggerThan ++ [idOf inv y] }).modifyControl (idOf inv y) fun c => { c with smallerThan := c.smallerThan ++ [idOf inv x] }) = idOf inv := rfl
      rw [hid] at huntouched hxc hyc
      refine ⟨inv2, ?_, ?_, ?_, ?_, ?_, ?_, ?_, ?_, ?_⟩
      · rw [show relateList inv ((y :: rest2).map fun z => (x, z)) =
            (relatePair inv x y >>= fun i => relateList i (rest2.map fun z => (x, z))) from rfl,
          heval]
        exact hrun
      · rw [hssz]
        rfl
      · rw [hslk]
        rfl
      · rw [hsbi]
        rfl
      · rw [hsbp]
        rfl
      · rw [hprof, modifyControl_profile_st, modifyControl_profile_bt]
      · intro k k1 k2
        have k2y : k ≠ idOf inv y := fun e => k2 (by rw [e]; exact List.mem_map_of_mem _ (List.mem_cons_self _ _))
        have k2r : k ∉ rest2.map (idOf inv) := fun hm => k2 (by
          simp only [List.map_cons, List.mem_cons]
          exact Or.inr hm)
        rw [huntouched k k1 k2r, hlAo k k1 k2y]
      · intro b hb
        rw [hbx] at hb
        obtain rfl : bx = b := by injection hb
        obtain ⟨bt, hbt⟩ := hxc ({ bx with biggerThan := bx.biggerThan ++ [idOf inv y] }) hlAx
        refine ⟨bt, ?_⟩
        rw [hbt]
        rw [show List.filter (fun t => t.Contains x) (y :: rest2) = List.filter (fun t => t.Contains x) rest2 from by simp [List.filter_cons, hyx]]
      · intro z hz b hb
        rcases List.mem_cons.mp hz with rfl | hz2
        · rw [hby] at hb
          obtain rfl : by2 = b := by injection hb
          have hzne : idOf inv z ∉ rest2.map (idOf inv) := by
            intro hm
            simp only [List.mem_map] at hm
            obtain ⟨t, ht, hte⟩ := hm
            have : t = z := h3 t (List.mem_cons_of_mem x (List.mem_cons_of_mem z ht)) z hymem hte
            subst this
            exact hy_nmem2 ht
          rw [huntouched (idOf inv z) (fun e => hne_ids e.symm) hzne, hlAy,
            if_pos hxy]
          exact ⟨by2.biggerThan, rfl⟩
        · have hzx : idOf inv z ≠ idOf inv x := fun e =>
            hx_nmem2 (by
              have := h3 z (List.mem_cons_of_mem x (List.mem_cons_of_mem y hz2)) x hxmem e
              rwa [this] at hz2)
          have hzy : idOf inv z ≠ idOf inv y := fun e => hy_nmem2 (by
            have := h3 z (List.mem_cons_of_mem x (List.mem_cons_of_mem y hz2)) y hymem e
            rwa [this] at hz2)
          obtain ⟨bt, hbt⟩ := hyc z hz2 b (by rw [hlAo _ hzx hzy]; exact hb)
          exact ⟨bt, hbt⟩
    | false =>
      cases hyx : y.Contains x with
      | true =>
        have heval := relatePair_pos2 inv x y hxy hyx hsx hsy
        have hlA : ∀ k, lookupA ((inv.modifyControl (idOf inv x) fun c => { c with smallerThan := c.smallerThan ++ [idOf inv y] }).modifyControl (idOf inv y) fun c => { c with biggerThan := c.biggerThan ++ [idOf inv x] }).control k =
            if k = idOf inv y then
              (if k = idOf inv x then (lookupA inv.control k).map (fun c => { c with smallerThan := c.smallerThan ++ [idOf inv y] }) else lookupA inv.control k).map (fun c => { c with biggerThan := c.biggerThan ++ [idOf inv x] })
            else
              (if k = idOf inv x then (lookupA inv.control k).map (fun c => { c with smallerThan := c.smallerThan ++ [idOf inv y] }) else lookupA inv.control k) := by
          intro k
          rw [modifyControl_lookup, modifyControl_lookup]
        have hlAx : lookupA ((inv.modifyControl (idOf inv x) fun c => { c with smallerThan := c.smallerThan ++ [idOf inv y] }).modifyControl (idOf inv y) fun c => { c with biggerThan := c.biggerThan ++ [idOf inv x] }).control (idOf inv x) =
            some { bx with smallerThan := bx.smallerThan ++ [idOf inv y] } := by
          rw [hlA, if_neg hne_ids, if_pos rfl, hbx]
          rfl
        have hlAy : lookupA ((inv.modifyControl (idOf inv x) fun c => { c with smallerThan := c.smallerThan ++ [idOf inv y] }).modifyControl (idOf inv y) fun c => { c with biggerThan := c.biggerThan ++ [idOf inv x] }).control (idOf inv y) =
            some { by2 with biggerThan := by2.biggerThan ++ [idOf inv x] } := by
          rw [hlA, if_pos rfl, if_neg (fun e => hne_ids e.symm), hby]
          rfl
        have hlAo : ∀ k, k ≠ idOf inv x → k ≠ idOf inv y → lookupA ((inv.modifyControl (idOf inv x) fun c => { c with smallerThan := c.smallerThan ++ [idOf inv y] }).modifyControl (idOf inv y) fun c => { c with biggerThan := c.biggerThan ++ [idOf inv x] }).control k = lookupA inv.control k := by
          intro k k1 k2
          rw [hlA, if_neg k2, if_neg k1]
        obtain ⟨inv2, hrun, hssz, hslk, hsbi, hsbp, hprof, huntouched, hxc, hyc⟩ :=
          ih ((inv.modifyControl (idOf inv x) fun c => { c with smallerThan := c.smallerThan ++ [idOf inv y] }).modifyControl (idOf inv y) fun c => { c with biggerThan := c.biggerThan ++ [idOf inv x] })
            hnd2
            (by
              intro s hs
              show (lookupA _ (idOf inv s)).isSome
              by_cases e1 : idOf inv s = idOf inv x
              · rw [e1, hlAx]
                rfl
              · by_cases e2 : idOf inv s = idOf inv y
                · rw [e2, hlAy]
                  rfl
                · rw [hlAo _ e1 e2]
                  rcases List.mem_cons.mp hs with rfl | hs2
                  · exact hsx
                  · exact h2 s (List.mem_cons_of_mem x (List.mem_cons_of_mem y hs2)))
            (by
              intro s hs t ht he
              have hs' : s ∈ x :: y :: rest2 := by
                rcases List.mem_cons.mp hs with rfl | hs2
                · exact hxmem
                · exact List.mem_cons_of_mem x (List.mem_cons_of_mem y hs2)
              have ht' : t ∈ x :: y :: rest2 := by
                rcases List.mem_cons.mp ht with rfl | ht2
                · exact hxmem
                · exact List.mem_cons_of_mem x (List.mem_cons_of_mem y ht2)
              exact h3 s hs' t ht' he)
        have hid : idOf ((inv.modifyControl (idOf inv x) fun c => { c with smallerThan := c.smallerThan ++ [idOf inv y] }).modifyControl (idOf inv y) fun c => { c with biggerThan := c.biggerThan ++ [idOf inv x] }) = idOf inv := rfl
        rw [hid] at huntouched hxc hyc
        refine ⟨inv2, ?_, ?_, ?_, ?_, ?_, ?_, ?_, ?_, ?_⟩
        · rw [show relateList inv ((y :: rest2).map fun z => (x, z)) =
              (relatePair inv x y >>= fun i => relateList i (rest2.map fun z => (x, z))) from rfl,
            heval]
          exact hrun
        · rw [hssz]
          rfl
        · rw [hslk]
          rfl
        · rw [hsbi]
          rfl
        · rw [hsbp]
          rfl
        · rw [hprof, modifyControl_profile_bt, modifyControl_profile_st]
        · intro k k1 k2
          have k2y : k ≠ idOf inv y := fun e => k2 (by rw [e]; exact List.mem_map_of_mem _ (List.mem_cons_self _ _))
          have k2r : k ∉ rest2.map (idOf inv) := fun hm => k2 (by
            simp only [List.map_cons, List.mem_cons]
            exact Or.inr hm)
          rw [huntouched k k1 k2r, hlAo k k1 k2y]
        · intro b hb
          rw [hbx] at hb
          obtain rfl : bx = b := by injection hb
          obtain ⟨bt, hbt⟩ := hxc ({ bx with smallerThan := bx.smallerThan ++ [idOf inv y] }) hlAx
          refine ⟨bt, ?_⟩
          rw [hbt]
          rw [show List.filter (fun t => t.Contains x) (y :: rest2) = y :: List.filter (fun t => t.Contains x) rest2 from by simp [List.filter_cons, hyx]]
          rw [List.map_cons]
          rw [List.append_assoc, List.singleton_append]
        · intro z hz b hb
          rcases List.mem_cons.mp hz with rfl | hz2
          · rw [hby] at hb
            obtain rfl : by2 = b := by injection hb
            have hzne : idOf inv z ∉ rest2.map (idOf inv) := by
              intro hm
              simp only [List.mem_map] at hm
              obtain ⟨t, ht, hte⟩ := hm
              have : t = z := h3 t (List.mem_cons_of_mem x (List.mem_cons_of_mem z ht)) z hymem hte
              subst this
              exact hy_nmem2 ht
            rw [huntouched (idOf inv z) (fun e => hne_ids e.symm) hzne, hlAy,
              if_neg (by rw [hxy]; exact Bool.false_ne_true)]
            refine ⟨by2.biggerThan ++ [idOf inv x], ?_⟩
            rw [List.append_nil]
          · have hzx : idOf inv z ≠ idOf inv x := fun e =>
              hx_nmem2 (by
                have := h3 z (List.mem_cons_of_mem x (List.mem_cons_of_mem y hz2)) x hxmem e
                rwa [this] at hz2)
            have hzy : idOf inv z ≠ idOf inv y := fun e => hy_nmem2 (by
              have := h3 z (List.mem_cons_of_mem x (List.mem_cons_of_mem y hz2)) y hymem e
              rwa [this] at hz2)
            obtain ⟨bt, hbt⟩ := hyc z hz2 b (by rw [hlAo _ hzx hzy]; exact hb)
            exact ⟨bt, hbt⟩
      | false =>
        have heval := relatePair_neg inv x y hxy hyx
        obtain ⟨inv2, hrun, hssz, hslk, hsbi, hsbp, hprof, huntouched, hxc, hyc⟩ :=
          ih inv hnd2
            (by
              intro s hs
              rcases List.mem_cons.mp hs with rfl | hs2
              · exact hsx
              · exact h2 s (List.mem_cons_of_mem x (List.mem_cons_of_mem y hs2)))
            (by
              intro s hs t ht he
              have hs' : s ∈ x :: y :: rest2 := by
                rcases List.mem_cons.mp hs with rfl | hs2
                · exact hxmem
                · exact List.mem_cons_of_mem x (List.mem_cons_of_mem y hs2)
              have ht' : t ∈ x :: y :: rest2 := by
                rcases List.mem_cons.mp ht with rfl | ht2
                · exact hxmem
                · exact List.mem_cons_of_mem x (List.mem_cons_of_mem y ht2)
              exact h3 s hs' t ht' he)
        refine ⟨inv2, ?_, hssz, hslk, hsbi, hsbp, hprof, ?_, ?_, ?_⟩
        · rw [show relateList inv ((y :: rest2).map fun z => (x, z)) =
              (relatePair inv x y >>= fun i => relateList i (rest2.map fun z => (x, z))) from rfl,
            heval]
          exact hrun
        · intro k k1 k2
          have k2r : k ∉ rest2.map (idOf inv) := fun hm => k2 (by
            simp only [List.map_cons, List.mem_cons]
            exact Or.inr hm)
          exact huntouched k k1 k2r
        · intro b hb
          obtain ⟨bt, hbt⟩ := hxc b hb
          refine ⟨bt, ?_⟩
          rw [hbt]
          rw [show List.filter (fun t => t.Contains x) (y :: rest2) = List.filter (fun t => t.Contains x) rest2 from by simp [List.filter_cons, hyx]]
        · intro z hz b hb
          rcases List.mem_cons.mp hz with rfl | hz2
          · have hzne : idOf inv z ∉ rest2.map (idOf inv) := by
              intro hm
              simp only [List.mem_map] at hm
              obtain ⟨t, ht, hte⟩ := hm
              have : t = z := h3 t (List.mem_cons_of_mem x (List.mem_cons_of_mem z ht)) z hymem hte
              subst this
              exact hy_nmem2 ht
            rw [huntouched (idOf inv z) (fun e => hne_ids e.symm) hzne, hb,
              if_neg (by rw [hxy]; exact Bool.false_ne_true)]
            refine ⟨b.biggerThan, ?_⟩
            rw [List.append_nil]
          · obtain ⟨bt, hbt⟩ := hyc z hz2 b hb
            exact ⟨bt, hbt⟩

theorem relateList_append : ∀ (l1 l2 : List (SizeSpec × SizeSpec)) (inv : Inventory),
    relateList inv (l1 ++ l2) = (relateList inv l1 >>= fun i => relateList i l2) := by
  intro l1
  induction l1 with
  | nil =>
    intro l2 inv
    rfl
  | cons p t iht =>
    intro l2 inv
    show (relatePair inv p.1 p.2 >>= fun i => relateList i (t ++ l2)) =
      ((relatePair inv p.1 p.2 >>= fun i => relateList i t) >>= fun i => relateList i l2)
    cases hp : relatePair inv p.1 p.2 with
    | none => rfl
    | some a =>
      show relateList a (t ++ l2) = (relateList a t >>= fun i => relateList i l2)
      exact iht l2 a

theorem relate_allPairs :
    ∀ (ss : List SizeSpec) (inv : Inventory),
      ss.Nodup →
      (∀ s ∈ ss, (lookupA inv.control (idOf inv s)).isSome) →
      (∀ s ∈ ss, ∀ t ∈ ss, idOf inv s = idOf inv t → s = t) →
      ∃ inv2, relateList inv (allPairs ss) = some inv2 ∧
        inv2.sizes = inv.sizes ∧ inv2.lockers = inv.lockers ∧
        inv2.lockersById = inv.lockersById ∧ inv2.lockersByPackageId = inv.lockersByPackageId ∧
        inv2.control.map (fun q => (q.1, q.2.size, q.2.lockers)) =
          inv.control.map (fun q => (q.1, q.2.size, q.2.lockers)) ∧
        (∀ k, k ∉ ss.map (idOf inv) → lookupA inv2.control k = lookupA inv.control k) ∧
        (∀ s ∈ ss, ∀ b, lookupA inv.control (idOf inv s) = some b →
          ∃ bt, lookupA inv2.control (idOf inv s) = some { b with biggerThan := bt, smallerThan := b.smallerThan ++ ((ss.filter fun t => decide (t ≠ s) && t.Contains s).map (idOf inv)) }) := by
  intro ss
  induction ss with
  | nil =>
    intro inv hnd h2 h3
    refine ⟨inv, rfl, rfl, rfl, rfl, rfl, rfl, fun k _ => rfl, ?_⟩
    intro s hs
    exact absurd hs (by simp)
  | cons x rest ih =>
    intro inv hnd h2 h3
    have hx_nmem : x ∉ rest := (List.nodup_cons.mp hnd).1
    have hrest_nd : rest.Nodup := (List.nodup_cons.mp hnd).2
    have hxmem : x ∈ x :: rest := List.mem_cons_self _ _
    obtain ⟨invA, hrunA, hsszA, hslkA, hsbiA, hsbpA, hprofA, huntouchedA, hxcA, hycA⟩ :=
      relateHead x rest inv hnd h2 h3
    have hidA : idOf invA = idOf inv := by
      funext s
      unfold idOf
      rw [hsszA]
    obtain ⟨inv2, hrun2, hssz2, hslk2, hsbi2, hsbp2, hprof2, huntouched2, hsc2⟩ :=
      ih invA hrest_nd
        (by
          intro s hs
          rw [hidA]
          obtain ⟨b, hb⟩ := Option.isSome_iff_exists.mp
            (h2 s (List.mem_cons_of_mem x hs))
          obtain ⟨bt, hbt⟩ := hycA s hs b hb
          rw [hbt]
          rfl)
        (by
          intro s hs t ht he
          rw [hidA] at he
          exact h3 s (List.mem_cons_of_mem x hs) t (List.mem_cons_of_mem x ht) he)
    rw [hidA] at huntouched2 hsc2
    refine ⟨inv2, ?_, ?_, ?_, ?_, ?_, ?_, ?_, ?_⟩
    · rw [show allPairs (x :: rest) = ((rest.map fun y => (x, y)) ++ allPairs rest) from rfl,
        relateList_append, hrunA]
      exact hrun2
    · rw [hssz2, hsszA]
    · rw [hslk2, hslkA]
    · rw [hsbi2, hsbiA]
    · rw [hsbp2, hsbpA]
    · rw [hprof2, hprofA]
    · intro k hk
      have hk1 : k ≠ idOf inv x := fun e => hk (by rw [e]; exact List.mem_map_of_mem _ hxmem)
      have hk2 : k ∉ rest.map (idOf inv) := fun hm => hk (by
        simp only [List.map_cons, List.mem_cons]
        exact Or.inr hm)
      rw [huntouched2 k hk2, huntouchedA k hk1 hk2]
    · intro s hs b hb
      rcases List.mem_cons.mp hs with rfl | hs2
      · obtain ⟨bt1, hbt1⟩ := hxcA b hb
        have hsx_nmem : idOf inv s ∉ rest.map (idOf inv) := by
          intro hm
          simp only [List.mem_map] at hm
          obtain ⟨t, ht, hte⟩ := hm
          have : t = s := h3 t (List.mem_cons_of_mem s ht) s hxmem hte
          subst this
          exact hx_nmem ht
        have hfeq : ((s :: rest).filter fun t => decide (t ≠ s) && t.Contains s) =
            rest.filter fun t => t.Contains s := by
          rw [List.filter_cons]
          rw [show (decide (s ≠ s) && s.Contains s) = false from by simp]
          simp only [Bool.false_eq_true, if_false]
          apply List.filter_congr
          intro t ht
          rw [show decide (t ≠ s) = true from decide_eq_true (fun e => hx_nmem (e ▸ ht)),
            Bool.true_and]
        refine ⟨bt1, ?_⟩
        rw [huntouched2 (idOf inv s) hsx_nmem, hbt1, hfeq]
      · obtain ⟨b1, hb1⟩ : ∃ b1, lookupA invA.control (idOf inv s) = some b1 := by
          obtain ⟨bt, hbt⟩ := hycA s hs2 b hb
          exact ⟨_, hbt⟩
        obtain ⟨bt1, hbt1⟩ := hycA s hs2 b hb
        obtain ⟨bt2, hbt2⟩ := hsc2 s hs2 ({ b with biggerThan := bt1, smallerThan := b.smallerThan ++ (if x.Contains s = true then [idOf inv x] else []) }) hbt1
        have hxs_ne : x ≠ s := fun e => hx_nmem (e ▸ hs2)
        have hls : (b.smallerThan ++ (if x.Contains s = true then [idOf inv x] else [])) ++ ((rest.filter fun t => decide (t ≠ s) && t.Contains s).map (idOf inv)) = b.smallerThan ++ (((x :: rest).filter fun t => decide (t ≠ s) && t.Contains s).map (idOf inv)) := by
          rw [List.filter_cons]
          rw [show decide (x ≠ s) = true from decide_eq_true hxs_ne, Bool.true_and]
          cases hcs : x.Contains s with
          | true =>
            simp only [if_true, List.map_cons, List.append_assoc, List.singleton_append]
          | false =>
            simp only [Bool.false_eq_true, if_false, List.append_nil]
        refine ⟨bt2, ?_⟩
        rw [hbt2]
        apply congrArg some
        show ({ b with biggerThan := bt2, smallerThan := (b.smallerThan ++ (if x.Contains s = true then [idOf inv x] else [])) ++ ((rest.filter fun t => decide (t ≠ s) && t.Contains s).map (idOf inv)) } : LockerControlSpec) = _
        rw [hls]

/-- The free count `len(inv.Control[i].Lockers)` phase 3 reads (0 for a
missing class; unused under the phase-3 precondition). -/
def lenAt (inv : Inventory) (i : LockerSize) : Nat :=
  ((lookupA inv.control i).map fun b => b.lockers.length).getD 0

theorem sumLockersOf_eq (inv : Inventory) : ∀ (ids : List LockerSize),
    (∀ i ∈ ids, (lookupA inv.control i).isSome) →
    sumLockersOf inv ids = some ((ids.map (lenAt inv)).sum) := by
  intro ids
  induction ids with
  | nil =>
    intro h
    rfl
  | cons i t iht =>
    intro h
    obtain ⟨b, hb⟩ := Option.isSome_iff_exists.mp (h i (List.mem_cons_self _ _))
    show (lookupA inv.control i >>= fun c =>
      (sumLockersOf inv t >>= fun s => some (c.lockers.length + s))) = _
    rw [hb, iht (fun j hj => h j (List.mem_cons_of_mem _ hj))]
    show some (b.lockers.length + (t.map (lenAt inv)).sum) = _
    rw [List.map_cons, List.sum_cons]
    rw [show lenAt inv i = b.lockers.length from by unfold lenAt; rw [hb]; rfl]

theorem phase3Loop_spec (inv : Inventory) : ∀ (l : List (LockerSize × LockerControlSpec)),
    (∀ p ∈ l, ∀ i ∈ p.2.smallerThan, (lookupA inv.control i).isSome) →
    phase3Loop inv l = some (l.map fun p => (p.1, { p.2 with virtualCapacity := p.2.virtualCapacity + Int.ofNat ((p.2.smallerThan.map (lenAt inv)).sum) + Int.ofNat p.2.lockers.length })) := by
  intro l
  induction l with
  | nil =>
    intro h
    rfl
  | cons p t iht =>
    intro h
    obtain ⟨sid, c⟩ := p
    show (sumLockersOf inv c.smallerThan >>= fun s => (phase3Loop inv t >>= fun rest2 =>
      some ((sid, { c with virtualCapacity := c.virtualCapacity + Int.ofNat s + Int.ofNat c.lockers.length }) :: rest2))) = _
    rw [sumLockersOf_eq inv _ (h (sid, c) (List.mem_cons_self _ _)),
      iht (fun q hq => h q (List.mem_cons_of_mem _ hq))]
    rfl

theorem nodup_proj_inj {α γ : Type} (f : α → γ) : ∀ {l : List α},
    (l.map f).Nodup → ∀ {a b : α}, a ∈ l → b ∈ l → f a = f b → a = b := by
  intro l
  induction l with
  | nil =>
    intro _ a b ha
    simp at ha
  | cons x t iht =>
    intro hnd a b ha hb he
    simp only [List.map_cons, List.nodup_cons] at hnd
    rcases List.mem_cons.mp ha with rfl | ha2
    · rcases List.mem_cons.mp hb with rfl | hb2
      · rfl
      · exact absurd (he ▸ List.mem_map_of_mem f hb2) hnd.1
    · rcases List.mem_cons.mp hb with rfl | hb2
      · exact absurd (he ▸ List.mem_map_of_mem f ha2) hnd.1
      · exact iht hnd.2 ha2 hb2 he

theorem sum_len_filter_transfer (P : SizeSpec → Bool) (F : SizeSpec → Nat) :
    ∀ (l : List (LockerSize × LockerControlSpec)),
      (∀ r ∈ l, r.2.lockers.length = F r.2.size) →
      ((l.filter fun r => P r.2.size).map fun r => r.2.lockers.length).sum =
        (((l.map fun r => r.2.size).filter P).map F).sum := by
  intro l
  induction l with
  | nil =>
    intro h
    rfl
  | cons r t iht =>
    intro h
    rw [List.map_cons, List.filter_cons, List.filter_cons]
    cases hP : P r.2.size with
    | true =>
      simp only [if_true]
      rw [List.map_cons, List.map_cons, List.sum_cons, List.sum_cons,
        iht (fun u hu => h u (List.mem_cons_of_mem _ hu)), h r (List.mem_cons_self _ _)]
    | false =>
      simp only [Bool.false_eq_true, if_false]
      exact iht (fun u hu => h u (List.mem_cons_of_mem _ hu))

/-- C1 (amended): after `NewInventory` succeeds, every class's seeded
virtual capacity equals its own free count plus the free counts of the
classes whose size strictly CONTAINS its size (the code sums over
`SmallerThan`, i.e. the strictly bigger classes), not of the strictly
smaller classes. -/
theorem newInventory_seed (g : Nat → String) (counts : List (SizeSpec × Nat)) (inv : Inventory)
    (h : NewInventory g counts = some inv) :
    ∀ p ∈ inv.control, p.2.virtualCapacity =
      Int.ofNat p.2.lockers.length +
      Int.ofNat (((inv.control.filter fun q => decide (q.2.size ≠ p.2.size) && q.2.size.Contains p.2.size).map fun q => q.2.lockers.length).sum) := by
  rw [show NewInventory g counts = (phase2 (phase1 g counts ({ lockers := [], control := [], sizes := [], lockersById := [], lockersByPackageId := [] } : Inventory)) >>= fun i => phase3 i) from rfl] at h
  rw [optBind_eq_some] at h
  obtain ⟨inv2, hph2, hph3⟩ := h
  obtain ⟨hnd1, hids1, hpair1⟩ : Phase1Inv (phase1 g counts ({ lockers := [], control := [], sizes := [], lockersById := [], lockersByPackageId := [] } : Inventory)) :=
    phase1_inv g counts _ ⟨by simp, rfl, List.Forall₂.nil⟩
  have hkeys1 : (phase1 g counts ({ lockers := [], control := [], sizes := [], lockersById := [], lockersByPackageId := [] } : Inventory)).control.map Prod.fst = (phase1 g counts ({ lockers := [], control := [], sizes := [], lockersById := [], lockersByPackageId := [] } : Inventory)).sizes.map Prod.snd :=
    forall2_map_eq (fun q p hp => hp.1) hpair1
  have hcsz1 : (phase1 g counts ({ lockers := [], control := [], sizes := [], lockersById := [], lockersByPackageId := [] } : Inventory)).control.map (fun q => q.2.size) = (phase1 g counts ({ lockers := [], control := [], sizes := [], lockersById := [], lockersByPackageId := [] } : Inventory)).sizes.map Prod.fst :=
    forall2_map_eq (fun q p hp => hp.2.1) hpair1
  have hidnd1 : ((phase1 g counts ({ lockers := [], control := [], sizes := [], lockersById := [], lockersByPackageId := [] } : Inventory)).sizes.map Prod.snd).Nodup := by
    rw [hids1]
    refine List.Nodup.map ?_ (List.nodup_range _)
    intro a b hab
    have h2 : Int.ofNat a = Int.ofNat b := add_right_cancel hab
    exact Int.ofNat.inj h2
  have hctlnd1 : ((phase1 g counts ({ lockers := [], control := [], sizes := [], lockersById := [], lockersByPackageId := [] } : Inventory)).control.map Prod.fst).Nodup := by
    rw [hkeys1]
    exact hidnd1
  have hmemlk : ∀ q ∈ (phase1 g counts ({ lockers := [], control := [], sizes := [], lockersById := [], lockersByPackageId := [] } : Inventory)).sizes, lookupA (phase1 g counts ({ lockers := [], control := [], sizes := [], lockersById := [], lockersByPackageId := [] } : Inventory)).sizes q.1 = some q.2 := by
    intro q hq
    obtain ⟨a, b⟩ := q
    exact mem_lookupA hnd1 hq
  have hidOf : ∀ q ∈ (phase1 g counts ({ lockers := [], control := [], sizes := [], lockersById := [], lockersByPackageId := [] } : Inventory)).sizes, idOf (phase1 g counts ({ lockers := [], control := [], sizes := [], lockersById := [], lockersByPackageId := [] } : Inventory)) q.1 = q.2 := by
    intro q hq
    unfold idOf
    rw [hmemlk q hq]
    rfl
  have hctl1 : ∀ q ∈ (phase1 g counts ({ lockers := [], control := [], sizes := [], lockersById := [], lockersByPackageId := [] } : Inventory)).sizes, ∃ b, lookupA (phase1 g counts ({ lockers := [], control := [], sizes := [], lockersById := [], lockersByPackageId := [] } : Inventory)).control q.2 = some b ∧ b.size = q.1 ∧ b.smallerThan = [] ∧ b.virtualCapacity = 0 := by
    intro q hq
    obtain ⟨pc, hpc, hPr⟩ := forall2_mem_left_gen hpair1 q hq
    obtain ⟨pk, pv⟩ := pc
    obtain ⟨e1, e2, e3, e4, e5, e6⟩ := hPr
    refine ⟨pv, ?_, e2, e5, e6⟩
    exact mem_lookupA hctlnd1 (e1 ▸ hpc)
  have hssH2 : ∀ s ∈ (phase1 g counts ({ lockers := [], control := [], sizes := [], lockersById := [], lockersByPackageId := [] } : Inventory)).sizes.map Prod.fst, (lookupA (phase1 g counts ({ lockers := [], control := [], sizes := [], lockersById := [], lockersByPackageId := [] } : Inventory)).control (idOf (phase1 g counts ({ lockers := [], control := [], sizes := [], lockersById := [], lockersByPackageId := [] } : Inventory)) s)).isSome := by
    intro s hs
    simp only [List.mem_map] at hs
    obtain ⟨q, hq, rfl⟩ := hs
    rw [hidOf q hq]
    obtain ⟨b, hb, h1, h2, h3⟩ := hctl1 q hq
    rw [hb]
    rfl
  have hssH3 : ∀ s ∈ (phase1 g counts ({ lockers := [], control := [], sizes := [], lockersById := [], lockersByPackageId := [] } : Inventory)).sizes.map Prod.fst, ∀ t ∈ (phase1 g counts ({ lockers := [], control := [], sizes := [], lockersById := [], lockersByPackageId := [] } : Inventory)).sizes.map Prod.fst, idOf (phase1 g counts ({ lockers := [], control := [], sizes := [], lockersById := [], lockersByPackageId := [] } : Inventory)) s = idOf (phase1 g counts ({ lockers := [], control := [], sizes := [], lockersById := [], lockersByPackageId := [] } : Inventory)) t → s = t := by
    intro s hs t ht he
    simp only [List.mem_map] at hs ht
    obtain ⟨q, hq, rfl⟩ := hs
    obtain ⟨r, hr, rfl⟩ := ht
    rw [hidOf q hq, hidOf r hr] at he
    have h4 : q = r := nodup_proj_inj Prod.snd hidnd1 hq hr he
    rw [h4]
  obtain ⟨inv2h, hrun2, hssz2, hslk2, hsbi2, hsbp2, hprof2, huntouched2, hsc2⟩ :=
    relate_allPairs ((phase1 g counts ({ lockers := [], control := [], sizes := [], lockersById := [], lockersByPackageId := [] } : Inventory)).sizes.map Prod.fst) (phase1 g counts ({ lockers := [], control := [], sizes := [], lockersById := [], lockersByPackageId := [] } : Inventory)) hnd1 hssH2 hssH3
  have hph2h : phase2 (phase1 g counts ({ lockers := [], control := [], sizes := [], lockersById := [], lockersByPackageId := [] } : Inventory)) = some inv2h := hrun2
  rw [hph2] at hph2h
  have he2 : inv2 = inv2h := Option.some.inj hph2h
  subst he2
  have hkeys2 : inv2.control.map Prod.fst = (phase1 g counts ({ lockers := [], control := [], sizes := [], lockersById := [], lockersByPackageId := [] } : Inventory)).control.map Prod.fst := by
    have h1 : inv2.control.map Prod.fst = inv2.control.map ((fun z : LockerSize × SizeSpec × List Nat => z.1) ∘ (fun q => (q.1, q.2.size, q.2.lockers))) := List.map_congr_left fun a ha => rfl
    have h2 : (phase1 g counts ({ lockers := [], control := [], sizes := [], lockersById := [], lockersByPackageId := [] } : Inventory)).control.map Prod.fst = (phase1 g counts ({ lockers := [], control := [], sizes := [], lockersById := [], lockersByPackageId := [] } : Inventory)).control.map ((fun z : LockerSize × SizeSpec × List Nat => z.1) ∘ (fun q => (q.1, q.2.size, q.2.lockers))) := List.map_congr_left fun a ha => rfl
    rw [h1, h2, ← List.map_map, ← List.map_map, hprof2]
  have hsize2 : inv2.control.map (fun q => q.2.size) = (phase1 g counts ({ lockers := [], control := [], sizes := [], lockersById := [], lockersByPackageId := [] } : Inventory)).sizes.map Prod.fst := by
    have h1 : inv2.control.map (fun q : LockerSize × LockerControlSpec => q.2.size) = inv2.control.map ((fun z : LockerSize × SizeSpec × List Nat => z.2.1) ∘ (fun q => (q.1, q.2.size, q.2.lockers))) := List.map_congr_left fun a ha => rfl
    have h2 : (phase1 g counts ({ lockers := [], control := [], sizes := [], lockersById := [], lockersByPackageId := [] } : Inventory)).control.map (fun q : LockerSize × LockerControlSpec => q.2.size) = (phase1 g counts ({ lockers := [], control := [], sizes := [], lockersById := [], lockersByPackageId := [] } : Inventory)).control.map ((fun z : LockerSize × SizeSpec × List Nat => z.2.1) ∘ (fun q => (q.1, q.2.size, q.2.lockers))) := List.map_congr_left fun a ha => rfl
    rw [h1, ← List.map_map, hprof2, List.map_map, ← h2, hcsz1]
  have hctlnd2 : (inv2.control.map Prod.fst).Nodup := by
    rw [hkeys2]
    exact hctlnd1
  have hB : ∀ q ∈ (phase1 g counts ({ lockers := [], control := [], sizes := [], lockersById := [], lockersByPackageId := [] } : Inventory)).sizes, ∃ bt b, lookupA (phase1 g counts ({ lockers := [], control := [], sizes := [], lockersById := [], lockersByPackageId := [] } : Inventory)).control q.2 = some b ∧ b.size = q.1 ∧ b.virtualCapacity = 0 ∧ lookupA inv2.control q.2 = some ({ b with biggerThan := bt, smallerThan := (((phase1 g counts ({ lockers := [], control := [], sizes := [], lockersById := [], lockersByPackageId := [] } : Inventory)).sizes.map Prod.fst).filter fun t => decide (t ≠ q.1) && t.Contains q.1).map (idOf (phase1 g counts ({ lockers := [], control := [], sizes := [], lockersById := [], lockersByPackageId := [] } : Inventory))) } : LockerControlSpec) := by
    intro q hq
    obtain ⟨b, hb, hbsz, hbst, hbvc⟩ := hctl1 q hq
    obtain ⟨bt, hbt⟩ := hsc2 q.1 (List.mem_map_of_mem Prod.fst hq) b (by rw [hidOf q hq]; exact hb)
    rw [hidOf q hq, hbst, List.nil_append] at hbt
    exact ⟨bt, b, hb, hbsz, hbvc, hbt⟩
  have hEntry : ∀ r ∈ inv2.control, ∃ q ∈ (phase1 g counts ({ lockers := [], control := [], sizes := [], lockersById := [], lockersByPackageId := [] } : Inventory)).sizes, ∃ bt b, lookupA (phase1 g counts ({ lockers := [], control := [], sizes := [], lockersById := [], lockersByPackageId := [] } : Inventory)).control q.2 = some b ∧ b.size = q.1 ∧ b.virtualCapacity = 0 ∧ r = (q.2, ({ b with biggerThan := bt, smallerThan := (((phase1 g counts ({ lockers := [], control := [], sizes := [], lockersById := [], lockersByPackageId := [] } : Inventory)).sizes.map Prod.fst).filter fun t => decide (t ≠ q.1) && t.Contains q.1).map (idOf (phase1 g counts ({ lockers := [], control := [], sizes := [], lockersById := [], lockersByPackageId := [] } : Inventory))) } : LockerControlSpec)) := by
    intro r hr
    obtain ⟨rk, rv⟩ := r
    have hrk : rk ∈ inv2.control.map Prod.fst := List.mem_map_of_mem Prod.fst hr
    rw [hkeys2, hkeys1] at hrk
    simp only [List.mem_map] at hrk
    obtain ⟨q, hq, hqe⟩ := hrk
    obtain ⟨bt, b, hb, hbsz, hbvc, hbt⟩ := hB q hq
    refine ⟨q, hq, bt, b, hb, hbsz, hbvc, ?_⟩
    have hlr : lookupA inv2.control rk = some rv := mem_lookupA hctlnd2 hr
    rw [← hqe] at hlr
    rw [hbt] at hlr
    rw [Prod.mk.injEq]
    exact ⟨hqe.symm, (Option.some.inj hlr).symm⟩
  have hpresent2 : ∀ t ∈ (phase1 g counts ({ lockers := [], control := [], sizes := [], lockersById := [], lockersByPackageId := [] } : Inventory)).sizes.map Prod.fst, (lookupA inv2.control (idOf (phase1 g counts ({ lockers := [], control := [], sizes := [], lockersById := [], lockersByPackageId := [] } : Inventory)) t)).isSome := by
    intro t ht
    simp only [List.mem_map] at ht
    obtain ⟨q, hq, rfl⟩ := ht
    rw [hidOf q hq]
    obtain ⟨bt, b, h1, h2, h3, hbt⟩ := hB q hq
    rw [hbt]
    rfl
  have hallp : ∀ p ∈ inv2.control, ∀ i ∈ p.2.smallerThan, (lookupA inv2.control i).isSome := by
    intro p hp i hi
    obtain ⟨q, hq, bt, b, hb, hbsz, hbvc, hpe⟩ := hEntry p hp
    subst hpe
    dsimp only at hi
    simp only [List.mem_map] at hi
    obtain ⟨t, htf, rfl⟩ := hi
    exact hpresent2 t (List.mem_of_mem_filter htf)
  have hloop := phase3Loop_spec inv2 inv2.control hallp
  rw [show phase3 inv2 = ((phase3Loop inv2 inv2.control).map fun ctl => ({ inv2 with control := ctl } : Inventory)) from rfl, hloop, Option.map_some'] at hph3
  have hfin : ({ inv2 with control := inv2.control.map (fun p => (p.1, { p.2 with virtualCapacity := p.2.virtualCapacity + Int.ofNat ((p.2.smallerThan.map (lenAt inv2)).sum) + Int.ofNat p.2.lockers.length })) } : Inventory) = inv := Option.some.inj hph3
  subst hfin
  intro p hp
  have hp2 : p ∈ inv2.control.map (fun p => (p.1, { p.2 with virtualCapacity := p.2.virtualCapacity + Int.ofNat ((p.2.smallerThan.map (lenAt inv2)).sum) + Int.ofNat p.2.lockers.length })) := hp
  simp only [List.mem_map] at hp2
  obtain ⟨r, hr, rfl⟩ := hp2
  obtain ⟨q, hq, bt, b, hb, hbsz, hbvc, hre⟩ := hEntry r hr
  subst hre
  show b.virtualCapacity + Int.ofNat (((((((phase1 g counts ({ lockers := [], control := [], sizes := [], lockersById := [], lockersByPackageId := [] } : Inventory)).sizes.map Prod.fst).filter fun t => decide (t ≠ q.1) && t.Contains q.1).map (idOf (phase1 g counts ({ lockers := [], control := [], sizes := [], lockersById := [], lockersByPackageId := [] } : Inventory)))).map (lenAt inv2)).sum)) + Int.ofNat b.lockers.length = Int.ofNat b.lockers.length + Int.ofNat ((((inv2.control.map (fun p => (p.1, { p.2 with virtualCapacity := p.2.virtualCapacity + Int.ofNat ((p.2.smallerThan.map (lenAt inv2)).sum) + Int.ofNat p.2.lockers.length }))).filter fun u => decide (u.2.size ≠ b.size) && u.2.size.Contains b.size).map fun u => u.2.lockers.length).sum)
  have hpoint : ∀ u ∈ inv2.control.map (fun p => (p.1, { p.2 with virtualCapacity := p.2.virtualCapacity + Int.ofNat ((p.2.smallerThan.map (lenAt inv2)).sum) + Int.ofNat p.2.lockers.length })), u.2.lockers.length = lenAt inv2 (idOf (phase1 g counts ({ lockers := [], control := [], sizes := [], lockersById := [], lockersByPackageId := [] } : Inventory)) u.2.size) := by
    intro u hu
    simp only [List.mem_map] at hu
    obtain ⟨u2, hu2, rfl⟩ := hu
    obtain ⟨qu, hqu, btu, bu, hbu, hbszu, hbvcu, hue⟩ := hEntry u2 hu2
    subst hue
    show bu.lockers.length = lenAt inv2 (idOf (phase1 g counts ({ lockers := [], control := [], sizes := [], lockersById := [], lockersByPackageId := [] } : Inventory)) bu.size)
    rw [hbszu, hidOf qu hqu]
    obtain ⟨btu2, bu2, hbu2, hbszu2, hbvcu2, hbtu2⟩ := hB qu hqu
    unfold lenAt
    rw [hbtu2]
    show bu.lockers.length = bu2.lockers.length
    rw [show bu2 = bu from by
      rw [hbu] at hbu2
      exact (Option.some.inj hbu2).symm]
  have htrans := sum_len_filter_transfer (fun t => decide (t ≠ q.1) && t.Contains q.1) (fun t => lenAt inv2 (idOf (phase1 g counts ({ lockers := [], control := [], sizes := [], lockersById := [], lockersByPackageId := [] } : Inventory)) t)) (inv2.control.map (fun p => (p.1, { p.2 with virtualCapacity := p.2.virtualCapacity + Int.ofNat ((p.2.smallerThan.map (lenAt inv2)).sum) + Int.ofNat p.2.lockers.length }))) hpoint
  have hms : (inv2.control.map (fun p => (p.1, { p.2 with virtualCapacity := p.2.virtualCapacity + Int.ofNat ((p.2.smallerThan.map (lenAt inv2)).sum) + Int.ofNat p.2.lockers.length }))).map (fun u => u.2.size) = (phase1 g counts ({ lockers := [], control := [], sizes := [], lockersById := [], lockersByPackageId := [] } : Inventory)).sizes.map Prod.fst := by
    rw [List.map_map]
    have h1 : inv2.control.map ((fun u : LockerSize × LockerControlSpec => u.2.size) ∘ (fun p => (p.1, { p.2 with virtualCapacity := p.2.virtualCapacity + Int.ofNat ((p.2.smallerThan.map (lenAt inv2)).sum) + Int.ofNat p.2.lockers.length }))) = inv2.control.map (fun u => u.2.size) := List.map_congr_left fun a ha => rfl
    rw [h1, hsize2]
  rw [hms] at htrans
  rw [hbsz, hbvc, List.map_map]
  have hcg : (((phase1 g counts ({ lockers := [], control := [], sizes := [], lockersById := [], lockersByPackageId := [] } : Inventory)).sizes.map Prod.fst).filter fun t => decide (t ≠ q.1) && t.Contains q.1).map (lenAt inv2 ∘ idOf (phase1 g counts ({ lockers := [], control := [], sizes := [], lockersById := [], lockersByPackageId := [] } : Inventory))) = (((phase1 g counts ({ lockers := [], control := [], sizes := [], lockersById := [], lockersByPackageId := [] } : Inventory)).sizes.map Prod.fst).filter fun t => decide (t ≠ q.1) && t.Contains q.1).map (fun t => lenAt inv2 (idOf (phase1 g counts ({ lockers := [], control := [], sizes := [], lockersById := [], lockersByPackageId := [] } : Inventory)) t)) := List.map_congr_left fun a ha => rfl
  rw [hcg, htrans]
  omega

/-- The seeding formula in the direction the spec asserts it: every class's
virtual capacity would equal its own free count plus the free counts of the
strictly SMALLER classes — the classes whose size its own size strictly
contains. -/
def specSeedBySmaller (inv : Inventory) : Bool :=
  inv.control.all fun p => p.2.virtualCapacity == Int.ofNat p.2.lockers.length + Int.ofNat (((inv.control.filter fun q => decide (q.2.size ≠ p.2.size) && p.2.size.Contains q.2.size).map fun q => q.2.lockers.length).sum)

theorem newInventory_seed_counterexample :
    (NewInventory (fun _ => "") [(⟨1, 1, 1⟩, 1), (⟨2, 2, 2⟩, 1)]).map specSeedBySmaller =
      some false := by decide

/-- The inventory `NewInventory` builds from one `1×1×1` and one `2×2×2`
locker with a constant identifier generator. -/
def invN : Inventory :=
  { lockers := [⟨"", 1, none⟩, ⟨"", 2, none⟩],
    control := [(1, ⟨1, ⟨1, 1, 1⟩, [], [2], [0], 2⟩),
                (2, ⟨2, ⟨2, 2, 2⟩, [1], [], [1], 1⟩)],
    sizes := [(⟨1, 1, 1⟩, 1), (⟨2, 2, 2⟩, 2)],
    lockersById := [("", 1)],
    lockersByPackageId := [] }

theorem newInventory_seed_witness :
    NewInventory (fun _ => "") [(⟨1, 1, 1⟩, 1), (⟨2, 2, 2⟩, 1)] = some invN ∧
    (∀ p ∈ invN.control, p.2.virtualCapacity =
      Int.ofNat p.2.lockers.length +
      Int.ofNat (((invN.control.filter fun q => decide (q.2.size ≠ p.2.size) && q.2.size.Contains p.2.size).map fun q => q.2.lockers.length).sum)) :=
  ⟨rfl, newInventory_seed (fun _ => "") [(⟨1, 1, 1⟩, 1), (⟨2, 2, 2⟩, 1)] invN rfl⟩
